import Mathlib

/-!
Shallow embedding of the email-campaign analysis pipeline of
`src/EmailAnalyzer.jsx`: the CSV reader (`parseCSV`), the weighted
template classifier (`analyzeTemplate` over the fixed `TEMPLATES`
registry), the metrics extractor (`calculateMetrics`), the subject
feature extractor (`analyzeSubject`) and the aggregator
(`analyzeEmails`).

Modelling conventions:
* JS strings are modelled as Lean `String`/`List Char`; the inputs in
  scope are ASCII, so `Char.toLower`, `Char.isWhitespace` and
  code-point lengths faithfully model `toLowerCase`, `\s` and
  `.length`.
* JS numbers are modelled exactly: integer counts as `Nat`/`Int`, the
  `NaN` produced by `parseInt` on unparsable input as `none` in
  `Option Int`, and the float expressions `(x*100).toFixed(1)` and
  `Math.round(x)` by exact rational arithmetic (round half up), which
  agrees with the source on every value it is evaluated at here.
* A JS row object (string keys, last assignment wins) is an
  association list read from the right.
* The regular-expression tests of the registry are compiled to
  substring/sequence matchers with the same acceptance behaviour on
  the (lower-cased, tag-stripped, whitespace-collapsed) text they are
  applied to.
-/

namespace EmailAnalyzer

/-- Characters of a string. -/
def chars (s : String) : List Char := s.data

/-- String from characters. -/
def ofChars (l : List Char) : String := ⟨l⟩

/-- Drop leading whitespace characters (model of the leading half of
`String.prototype.trim`). -/
def dropLeadWs : List Char → List Char
  | [] => []
  | c :: rest => if c.isWhitespace then dropLeadWs rest else c :: rest

/-- Model of JS `s.trim()`: drop leading and trailing whitespace. -/
def trimChars (l : List Char) : List Char :=
  (dropLeadWs ((dropLeadWs l).reverse)).reverse

/-- Model of JS `s.toLowerCase()` (ASCII). -/
def jsToLower (s : String) : String := ofChars (s.data.map Char.toLower)

/-- Model of JS `s.split(sep)` for a single-character separator:
splits at every occurrence, keeping empty parts. -/
def splitOnChar (sep : Char) : List Char → List (List Char)
  | [] => [[]]
  | c :: rest =>
    if c = sep then [] :: splitOnChar sep rest
    else
      match splitOnChar sep rest with
      | [] => [[c]]
      | p :: ps => (c :: p) :: ps

/-- Model of `.replace(/^"|"$/g, '')`: remove one leading and one
trailing double quote. -/
def stripOuterQuotes (l : List Char) : List Char :=
  let l1 := if l.head? = some '"' then l.tail else l
  if l1.getLast? = some '"' then l1.dropLast else l1

/-- `current.trim().replace(/^"|"$/g, '')` applied to a completed CSV
field. -/
def cleanField (l : List Char) : String := ofChars (stripOuterQuotes (trimChars l))

/-- `h.trim().replace(/^"|"$/g, '').toLowerCase()` applied to a header
token. -/
def cleanHeader (l : List Char) : String := jsToLower (ofChars (stripOuterQuotes (trimChars l)))

/-- A parsed CSV row: JS object from column name to string value. -/
abbrev Row := List (String × String)

/-- Lookup in a reversed association list (first match). -/
def rowGetRev : List (String × String) → String → String
  | [], _ => ""
  | (k', v) :: rest, k => if k' = k then v else rowGetRev rest k

/-- Model of `row[k]` on a JS object built by successive assignments:
the last binding for `k` wins; a missing key reads as `''`
(`undefined` is falsy exactly like the empty string in every use
below). -/
def rowGet (r : Row) (k : String) : String := rowGetRev r.reverse k

/-- First truthy value of `r[k1] || r[k2] || ...`: the first alias
whose value is present and non-empty. -/
def firstNonEmpty (r : Row) : List String → Option String
  | [] => none
  | k :: ks => if rowGet r k = "" then firstNonEmpty r ks else some (rowGet r k)

/-- `r[k1] || r[k2] || ... || ''`. -/
def chainGet (r : Row) (ks : List String) : String := (firstNonEmpty r ks).getD ""

/-! ### CSV Reader (`parseCSV`) -/

/-- Scanner state of the custom comma splitter: completed `values`,
the `current` field, and the `inQuotes` flag. -/
structure ScanSt where
  values : List String
  current : List Char
  inQuotes : Bool

/-- One character of the scan loop: `"` toggles `inQuotes`; an
unquoted `,` completes the current field; anything else is appended. -/
def scanChar (st : ScanSt) (c : Char) : ScanSt :=
  if c = '"' then { st with inQuotes := !st.inQuotes }
  else if c = ',' ∧ st.inQuotes = false then
    { values := st.values ++ [cleanField st.current], current := [], inQuotes := st.inQuotes }
  else { st with current := st.current ++ [c] }

/-- Scan one physical line. -/
def scanLine (st : ScanSt) (line : List Char) : ScanSt := line.foldl scanChar st

/-- Scan one logical record: while the line ends inside quotes and
more physical lines remain, append a newline plus the next line;
finally push the pending field. Returns the completed values and the
remaining physical lines. -/
def scanRecord (st : ScanSt) : List (List Char) → List String × List (List Char)
  | [] => (st.values ++ [cleanField st.current], [])
  | line :: rest =>
    let st' := scanLine st line
    if st'.inQuotes = true ∧ rest ≠ [] then
      scanRecord { st' with current := st'.current ++ ['\n'] } rest
    else
      (st'.values ++ [cleanField st'.current], rest)

/-- `headers.forEach((header, idx) => row[header] = values[idx] || '')`. -/
def mkRow (headers : List String) (values : List String) : Row :=
  headers.enum.map fun p => (p.2, values.getD p.1 "")

/-- The empty-row filter: keep a row with at least one of
body/subject/recipient non-empty after trimming, and, when a body is
present, a trimmed body of at least 10 characters. -/
def keepRow (row : Row) : Bool :=
  let b := rowGet row "body"
  let s := rowGet row "subject"
  let r := rowGet row "recipient"
  let hasBody := (b != "") && decide (0 < (trimChars b.data).length)
  let hasSubject := (s != "") && decide (0 < (trimChars s.data).length)
  let hasRecipient := (r != "") && decide (0 < (trimChars r.data).length)
  (hasBody || hasSubject || hasRecipient) &&
    (!hasBody || decide (10 ≤ (trimChars b.data).length))

/-- The record loop of `parseCSV`, with fuel bounded by the number of
remaining lines (each record consumes at least one line, so the fuel
never runs out when initialised with the line count). -/
def parseRowsF (headers : List String) : Nat → List (List Char) → List Row
  | 0, _ => []
  | _ + 1, [] => []
  | f + 1, line :: rest =>
    let res := scanRecord ⟨[], [], false⟩ (line :: rest)
    let row := mkRow headers res.1
    let rows := parseRowsF headers f res.2
    if keepRow row then row :: rows else rows

/-- All records of the body lines. -/
def parseRows (headers : List String) (lines : List (List Char)) : List Row :=
  parseRowsF headers lines.length lines

/-- Header row: split on commas, trim, strip one layer of quotes,
lower-case. -/
def parseHeaders (line : List Char) : List String :=
  (splitOnChar ',' line).map cleanHeader

/-- Model of `parseCSV(text)`. -/
def parseCSV (text : String) : List Row :=
  let lines := splitOnChar '\n' text.data
  if lines.length < 2 then []
  else parseRows (parseHeaders (lines.headD [])) (lines.drop 1)

/-! ### Regular-expression matchers

Each registry pattern is an alternation of literals, possibly with an
anchored head, a `.*` separator, or a one-character lookahead; the
matchers below implement exactly the acceptance behaviour of those
regexes on the scored text (which is lower-cased and newline-free). -/

/-- Does the pattern match at the head of the text? -/
def matchesAt : List Char → List Char → Bool
  | [], _ => true
  | _ :: _, [] => false
  | p :: ps, c :: cs => p = c && matchesAt ps cs

/-- Does the pattern occur anywhere in the text? -/
def hasSub (pat : List Char) : List Char → Bool
  | [] => matchesAt pat []
  | c :: cs => matchesAt pat (c :: cs) || hasSub pat cs

/-- Alternation of literal substrings, e.g. `/a|b|c/`. -/
def anySub (pats : List String) (text : List Char) : Bool :=
  pats.any fun p => hasSub p.data text

/-- `/p1.*p2/` on newline-free text: `p1` occurs and `p2` occurs at or
after the end of that occurrence. -/
def hasSeq (p1 p2 : List Char) : List Char → Bool
  | [] => matchesAt p1 [] && hasSub p2 []
  | c :: cs =>
    (matchesAt p1 (c :: cs) && hasSub p2 ((c :: cs).drop p1.length)) || hasSeq p1 p2 cs

/-- `/(a1|a2).*(b1|b2)/`: some left literal followed by some right
literal. The optional suffixes of the source pattern (`challenges?`
etc.) are dropped because a match using the longer alternative is
also a match using its mandatory stem. -/
def seqAlt (ps1 ps2 : List String) (text : List Char) : Bool :=
  ps1.any fun a => ps2.any fun b => hasSeq a.data b.data text

/-- `/\d+%|\d+x/`: a digit immediately followed by `%` or `x` (the
minimal witness of a digit run before the terminator). -/
def digitThenPctOrX : List Char → Bool
  | a :: b :: rest => (a.isDigit && (b = '%' || b = 'x')) || digitThenPctOrX (b :: rest)
  | _ => false

/-- `.*\?\s` after an anchored head: a `?` followed by a whitespace
character somewhere in the remainder. -/
def qmarkThenWs : List Char → Bool
  | a :: b :: rest => (a = '?' && b.isWhitespace) || qmarkThenWs (b :: rest)
  | _ => false

/-- `/^(a1|a2|...)<cont>/`: some alternative matches at the start and
the continuation matcher accepts the remainder. -/
def anchoredAltThen (alts : List String) (cont : List Char → Bool) (text : List Char) : Bool :=
  alts.any fun a => matchesAt a.data text && cont (text.drop a.data.length)

/-- JS regex word character, for `\b`. -/
def isWordChar (c : Char) : Bool := c.isAlphanum || c = '_'

/-- `\b` right after a literal ending in a word character: end of text
or a non-word character next. -/
def wordBoundaryNext : List Char → Bool
  | [] => true
  | c :: _ => !(isWordChar c)

/-! ### Template registry (`TEMPLATES`) -/

/-- An indicator rule: the compiled pattern test plus its weight. -/
structure Indicator where
  test : List Char → Bool
  weight : Nat

/-- A template definition of the registry. -/
structure Template where
  name : String
  description : String
  indicators : List Indicator
  minScore : Nat

def RESEARCH_BASED : Template where
  name := "Research-Based Outreach"
  description := "Personalized emails that reference specific research about the prospect or their organization, followed by a relevant pain point question and social proof"
  indicators := [
    ⟨anySub ["noticed", "saw that", "came across", "read about", "read that", "saw your", "found that"], 2⟩,
    ⟨anySub ["wondering if", "curious if", "curious about", "interested to know"], 2⟩,
    ⟨fun t => anySub ["was able to", "were able to", "achieved", "accomplished", "saw a"] t
        || hasSeq "helped".data "achieve".data t, 2⟩,
    ⟨seqAlt ["challenge", "issue", "pain point", "concern"]
        ["facing", "experiencing", "dealing with"], 1⟩]
  minScore := 4

def PROBLEM_SOLUTION : Template where
  name := "Problem + Solution"
  description := "Direct approach identifying a common problem followed by proposed solution, often without personalization"
  indicators := [
    ⟨anySub ["struggling with", "challenges with", "difficulty", "problem with", "issue with"], 2⟩,
    ⟨anySub ["solution", "solve", "address", "help with", "can help"], 2⟩,
    ⟨anySub ["we offer", "we provide", "we have", "we specialize"], 1⟩]
  minScore := 3

def MEETING_REQUEST : Template where
  name := "Direct Meeting Request"
  description := "Straightforward ask for a meeting or call, often with minimal context"
  indicators := [
    ⟨anySub ["schedule", "calendar", "meeting", "call", "connect",
        "time to chat", "time to talk", "time to discuss"], 2⟩,
    ⟨anySub ["available", "free", "open", "have time", "have 15 minutes"], 1⟩,
    ⟨anySub ["would you be", "would you have", "are you available", "are you free"], 1⟩]
  minScore := 3

def FOLLOW_UP : Template where
  name := "Follow-Up"
  description := "Checking in on previous communication or continuing an existing conversation"
  indicators := [
    ⟨anySub ["following up", "follow up", "checking in", "touching base", "circling back"], 3⟩,
    ⟨anySub ["previous", "earlier", "last week", "last email", "last conversation",
        "haven\x27t heard"], 2⟩]
  minScore := 3

def VALUE_PROP : Template where
  name := "Value Proposition"
  description := "Leading with company benefits, ROI, or results without specific personalization"
  indicators := [
    ⟨anySub ["we help", "we work with", "we\x27ve helped", "we partner"], 2⟩,
    ⟨anySub ["increase", "reduce", "improve", "save", "grow"], 1⟩,
    ⟨digitThenPctOrX, 1⟩]
  minScore := 3

def EVENT_BASED : Template where
  name := "Event-Based Outreach"
  description := "Leveraging a conference, event, or specific timing for outreach"
  indicators := [
    ⟨anySub ["conference", "summit", "meeting", "event", "attending"], 2⟩,
    ⟨anySub ["while you\x27re", "will be", "in new york", "in boston", "in chicago",
        "in san francisco", "in new orleans"], 2⟩,
    ⟨anySub ["next week", "coming up", "around the corner"], 1⟩]
  minScore := 3

def SOCIAL_PROOF : Template where
  name := "Social Proof Heavy"
  description := "Multiple references to other clients, case studies, or results to build credibility"
  indicators := [
    ⟨seqAlt ["university", "college", "school", "hospital", "health system"]
        ["achieved", "saw", "increased"], 2⟩,
    ⟨anySub ["similar to yours", "others like you", "clients like"], 2⟩,
    ⟨anySub ["case study", "success story"], 2⟩]
  minScore := 3

def QUESTION_OPENER : Template where
  name := "Question Opener"
  description := "Opens with a direct question to engage prospect"
  indicators := [
    ⟨anchoredAltThen ["hi", "hello", "hey"] qmarkThenWs, 2⟩,
    ⟨fun t => anchoredAltThen ["are you", "do you", "have you", "would you", "can you"]
        wordBoundaryNext t, 2⟩]
  minScore := 2

/-- The fixed registry, in `Object.entries` (insertion) order. -/
def TEMPLATES : List Template :=
  [RESEARCH_BASED, PROBLEM_SOLUTION, MEETING_REQUEST, FOLLOW_UP,
   VALUE_PROP, EVENT_BASED, SOCIAL_PROOF, QUESTION_OPENER]

/-! ### Template Classifier (`analyzeTemplate`) -/

/-- Is there a `>` ahead (so that `<` starts a regex match of
`/<[^>]*>/`)? -/
def hasGt : List Char → Bool
  | [] => false
  | c :: rest => c = '>' || hasGt rest

/-- Drop everything up to and including the next `>`. -/
def dropAfterGt : List Char → List Char
  | [] => []
  | c :: rest => if c = '>' then rest else dropAfterGt rest

/-- `.replace(/<[^>]*>/g, '')`, with fuel bounded by the text length
(each step consumes at least one character). -/
def stripTagsF : Nat → List Char → List Char
  | 0, l => l
  | _ + 1, [] => []
  | f + 1, c :: rest =>
    if c = '<' && hasGt rest then stripTagsF f (dropAfterGt rest)
    else c :: stripTagsF f rest

def stripTags (l : List Char) : List Char := stripTagsF l.length l

/-- `.replace(/\s+/g, ' ')`: collapse every maximal whitespace run to
a single space. -/
def collapseWs : List Char → List Char
  | [] => []
  | [c] => [if c.isWhitespace then ' ' else c]
  | a :: b :: rest =>
    if a.isWhitespace && b.isWhitespace then collapseWs (b :: rest)
    else (if a.isWhitespace then ' ' else a) :: collapseWs (b :: rest)

/-- The signature markers of the case-insensitive signature split
(two dashes, sincerely, best regards, regards, thanks, thank you,
cheers). -/
def SIG_MARKERS : List String :=
  ["--", "sincerely", "best regards", "regards", "thanks", "thank you", "cheers"]

/-- Does a signature marker match at this position? -/
def sigAt (t : List Char) : Bool := SIG_MARKERS.any fun m => matchesAt m.data t

/-- `[0]` of the signature split: the prefix before the first marker
occurrence. -/
def cutSig : List Char → List Char
  | [] => []
  | c :: cs => if sigAt (c :: cs) then [] else c :: cutSig cs

/-- The scored text: lower-case, strip HTML-like tags, collapse
whitespace, trim, truncate at the first signature marker. -/
def preprocessBody (emailBody : String) : List Char :=
  let body := emailBody.data.map Char.toLower
  let cleanBody := trimChars (collapseWs (stripTags body))
  cutSig cleanBody

/-- Number of maximal whitespace runs (helper for the word count). -/
def wsRunsAux (inRun : Bool) : List Char → Nat
  | [] => 0
  | c :: rest =>
    if c.isWhitespace then
      if inRun then wsRunsAux true rest else 1 + wsRunsAux true rest
    else wsRunsAux false rest

/-- `bodyWithoutSig.split(/\s+/).length`: one more part than there are
whitespace runs. -/
def jsSplitWsCount (l : List Char) : Nat := wsRunsAux false l + 1

/-- Sum of the weights of the matching indicator rules. -/
def scoreTemplate (t : Template) (text : List Char) : Nat :=
  (t.indicators.map fun ind => if ind.test text then ind.weight else 0).sum

/-- A classification result. -/
structure ClassificationResult where
  type : String
  score : Nat
  description : String
deriving DecidableEq

/-- The scoring loop over the registry: keep the first template whose
qualifying score strictly exceeds the best so far. -/
def runRegistry (text : List Char) : List Template → Nat → Option (Template × Nat) → Option (Template × Nat)
  | [], _, best => best
  | t :: rest, hi, best =>
    let sc := scoreTemplate t text
    if t.minScore ≤ sc ∧ hi < sc then runRegistry text rest sc (some (t, sc))
    else runRegistry text rest hi best

/-- The best match over the full registry (`bestMatch`/`highestScore`
start at `null`/`0`). -/
def pickBest (text : List Char) : Option (Template × Nat) := runRegistry text TEMPLATES 0 none

/-- Fallback categorization by word count. -/
def fallbackResult (text : List Char) : ClassificationResult :=
  let wordCount := jsSplitWsCount text
  if wordCount < 30 then
    ⟨"Short & Direct", 1, "Brief, concise message under 30 words"⟩
  else if 150 < wordCount then
    ⟨"Long-Form Narrative", 1, "Detailed, comprehensive message over 150 words"⟩
  else
    ⟨"Standard Outreach", 0, "General outreach email without distinct pattern"⟩

/-- Model of `analyzeTemplate(emailBody)`. -/
def analyzeTemplate (emailBody : String) : ClassificationResult :=
  if emailBody = "" ∨ (trimChars emailBody.data).length = 0 then
    ⟨"Empty/No Body", 0, "Email has no body content"⟩
  else
    let text := preprocessBody emailBody
    match pickBest text with
    | some (t, s) => ⟨t.name, s, t.description⟩
    | none => fallbackResult text

/-! ### Metrics Extractor (`calculateMetrics`) -/

/-- Accumulate a digit run (radix `base`), stopping at the first
non-digit. -/
def parseDigitsAux (f : Char → Option Nat) (base : Nat) (acc : Nat) : List Char → Nat
  | [] => acc
  | c :: rest =>
    match f c with
    | some d => parseDigitsAux f base (acc * base + d) rest
    | none => acc

/-- Decimal digit value. -/
def decDigit (c : Char) : Option Nat :=
  if c.isDigit then some (c.toNat - 48) else none

/-- Hexadecimal digit value. -/
def hexDigit (c : Char) : Option Nat :=
  if c.isDigit then some (c.toNat - 48)
  else if 'a' ≤ c ∧ c ≤ 'f' then some (c.toNat - 97 + 10)
  else if 'A' ≤ c ∧ c ≤ 'F' then some (c.toNat - 65 + 10)
  else none

/-- Longest digit-run prefix; `none` when there is no leading digit
(the `NaN` case). -/
def parseRun (f : Char → Option Nat) (base : Nat) : List Char → Option Nat
  | [] => none
  | c :: rest =>
    match f c with
    | some d => some (parseDigitsAux f base d rest)
    | none => none

/-- Model of JS `parseInt(s)` (radix unspecified): skip leading
whitespace, optional sign, then either a `0x`/`0X` hexadecimal run or
a decimal run; `none` models `NaN`. -/
def jsParseInt (l0 : List Char) : Option Int :=
  let l1 := dropLeadWs l0
  let sign : Int := match l1 with
    | '-' :: _ => -1
    | _ => 1
  let l2 := match l1 with
    | '-' :: r => r
    | '+' :: r => r
    | _ => l1
  let run := match l2 with
    | '0' :: 'x' :: rest => parseRun hexDigit 16 rest
    | '0' :: 'X' :: rest => parseRun hexDigit 16 rest
    | _ => parseRun decDigit 10 l2
  run.map fun n => sign * (n : Int)

def jsParseIntS (s : String) : Option Int := jsParseInt s.data

/-- Extracted metrics; the raw counts are `Option Int` with `none`
modelling the `NaN` of `parseInt` on a present but unparsable value. -/
structure Metrics where
  opened : Bool
  clicked : Bool
  replied : Bool
  opens : Option Int
  clicks : Option Int
  replies : Option Int
deriving DecidableEq

/-- `parseInt(email.k1 || email.k2 || ... || 0)`: the first truthy
alias value is parsed; with no truthy alias the literal `0` is
parsed. -/
def metricVal (r : Row) (ks : List String) : Option Int :=
  match firstNonEmpty r ks with
  | none => some 0
  | some s => jsParseIntS s

/-- `v > 0` in JS, where `v` may be `NaN` (never greater than 0). -/
def optPos : Option Int → Bool
  | some v => 0 < v
  | none => false

/-- Model of `calculateMetrics(email)` (binary counting). -/
def calculateMetrics (email : Row) : Metrics :=
  let opens := metricVal email ["opens", "Opens", "opened", "Opened"]
  let clicks := metricVal email ["clicks", "Clicks", "clicked", "Clicked"]
  let replies := metricVal email ["replies", "Replies", "replied", "Replied"]
  { opened := optPos opens, clicked := optPos clicks, replied := optPos replies,
    opens := opens, clicks := clicks, replies := replies }

/-! ### Subject Feature Extractor (`analyzeSubject`) -/

structure SubjectFeatures where
  length : Nat
  hasQuestion : Bool
  hasPersonalization : Bool
  hasNumbers : Bool
  hasEmoji : Bool
deriving DecidableEq

/-- Model of `analyzeSubject(subject)`; for a falsy (empty) subject
the absent JS fields read as falsy, modelled `false`. -/
def analyzeSubject (subject : String) : SubjectFeatures :=
  if subject = "" then ⟨0, false, false, false, false⟩
  else
    { length := subject.data.length,
      hasQuestion := subject.data.any (· = '?'),
      hasPersonalization :=
        subject.data.any (fun c => c = '\x7b' || c = '[')
          || anySub ["first", "name"] (jsToLower subject).data,
      hasNumbers := subject.data.any Char.isDigit,
      hasEmoji := subject.data.any fun c => 0x1F600 ≤ c.toNat ∧ c.toNat ≤ 0x1F64F }

/-! ### Aggregator (`analyzeEmails`) -/

/-- A per-email detail record kept inside each group. -/
structure EmailDetail where
  subject : String
  body : String
  metrics : Metrics
  sentDate : String
  recipient : String
deriving DecidableEq

/-- A template group accumulator. The rate fields are set by the
finalisation pass (empty until then). -/
structure Group where
  name : String
  description : String
  count : Nat
  opens : Nat
  clicks : Nat
  replies : Nat
  avgLength : Nat
  totalLength : Nat
  emails : List EmailDetail
  openRate : String
  clickRate : String
  replyRate : String
deriving DecidableEq

/-- A subject bucket. -/
structure Bucket where
  opens : Nat
  total : Nat
deriving DecidableEq

structure SubjectAnalysis where
  withQuestion : Bucket
  withoutQuestion : Bucket
  shortSubject : Bucket
  longSubject : Bucket
deriving DecidableEq

structure Overall where
  totalEmails : Nat
  totalOpens : Nat
  totalClicks : Nat
  totalReplies : Nat
  openRate : String
  clickRate : String
  replyRate : String
deriving DecidableEq

structure Report where
  templateGroups : List Group
  overall : Overall
  subjectAnalysis : SubjectAnalysis
deriving DecidableEq

/-- `((part / count) * 100).toFixed(1)` under exact rational
arithmetic: the number of tenths, rounded half up, printed with one
decimal. -/
def fixed1 (part count : Nat) : String :=
  let n := (2000 * part + count) / (2 * count)
  toString (n / 10) ++ "." ++ toString (n % 10)

/-- `group.count > 0 ? rate.toFixed(1) : 0` (the JS number `0` of the
dead branch is printed `"0"`). -/
def rateString (part count : Nat) : String :=
  if 0 < count then fixed1 part count else "0"

/-- An overall rate: with no emails the JS division yields `NaN` and
`toFixed` prints `"NaN"`. -/
def overallRate (part total : Nat) : String :=
  if 0 < total then fixed1 part total else "NaN"

/-- A fresh group for a first-seen template type
(`description || 'Email template pattern'`). -/
def newGroup (ty desc : String) : Group :=
  { name := ty,
    description := if desc = "" then "Email template pattern" else desc,
    count := 0, opens := 0, clicks := 0, replies := 0,
    avgLength := 0, totalLength := 0, emails := [],
    openRate := "", clickRate := "", replyRate := "" }

/-- One row folded into its group: bump count and totalLength,
recompute `avgLength = Math.round(totalLength / count)` (half up),
bump the binary counters, append the detail record. -/
def bumpGroup (g : Group) (bodyLen : Nat) (m : Metrics) (d : EmailDetail) : Group :=
  let count := g.count + 1
  let totalLength := g.totalLength + bodyLen
  { g with
    count := count,
    totalLength := totalLength,
    avgLength := (2 * totalLength + count) / (2 * count),
    opens := g.opens + (if m.opened then 1 else 0),
    clicks := g.clicks + (if m.clicked then 1 else 0),
    replies := g.replies + (if m.replied then 1 else 0),
    emails := g.emails ++ [d] }

/-- `templateGroups[type]` update: bump the (unique) existing group of
that name or append a fresh one, preserving insertion order. -/
def updateGroups (ty desc : String) (bodyLen : Nat) (m : Metrics) (d : EmailDetail) :
    List Group → List Group
  | [] => [bumpGroup (newGroup ty desc) bodyLen m d]
  | g :: gs =>
    if g.name = ty then bumpGroup g bodyLen m d :: gs
    else g :: updateGroups ty desc bodyLen m d gs

/-- Bucket update: total always, opens iff the binary flag. -/
def bumpBucket (b : Bucket) (opened : Bool) : Bucket :=
  { opens := b.opens + (if opened then 1 else 0), total := b.total + 1 }

/-- The mutable state of the single aggregation pass. -/
structure AnalyzerState where
  groups : List Group
  subj : SubjectAnalysis

/-- Body alias chain of the aggregator. -/
def bodyField (email : Row) : String :=
  chainGet email ["body", "Body", "Email Body", "content", "message"]

/-- Subject alias chain of the aggregator. -/
def subjectField (email : Row) : String :=
  chainGet email ["subject", "Subject", "Subject Line", "subject_line"]

/-- Sent-date alias chain of the detail record. -/
def sentDateField (email : Row) : String :=
  chainGet email ["date", "Date", "Sent Date", "sent_date"]

/-- Recipient alias chain of the detail record. -/
def recipientField (email : Row) : String :=
  chainGet email ["to", "To", "recipient", "Recipient", "email"]

/-- The body of `emails.forEach` in `analyzeEmails`. -/
def processEmail (st : AnalyzerState) (email : Row) : AnalyzerState :=
  let bf := bodyField email
  let sf := subjectField email
  let template := analyzeTemplate bf
  let m := calculateMetrics email
  let subject := analyzeSubject sf
  let d : EmailDetail := ⟨sf, bf, m, sentDateField email, recipientField email⟩
  let groups := updateGroups template.type template.description bf.data.length m d st.groups
  let sa := st.subj
  let sa :=
    if subject.hasQuestion then { sa with withQuestion := bumpBucket sa.withQuestion m.opened }
    else { sa with withoutQuestion := bumpBucket sa.withoutQuestion m.opened }
  let sa :=
    if subject.length < 40 then { sa with shortSubject := bumpBucket sa.shortSubject m.opened }
    else { sa with longSubject := bumpBucket sa.longSubject m.opened }
  ⟨groups, sa⟩

/-- The initial aggregation state. -/
def initState : AnalyzerState := ⟨[], ⟨⟨0, 0⟩, ⟨0, 0⟩, ⟨0, 0⟩, ⟨0, 0⟩⟩⟩

/-- The full single pass. -/
def analyzeState (emails : List Row) : AnalyzerState :=
  emails.foldl processEmail initState

/-- Rate finalisation of one group. -/
def finalizeGroup (g : Group) : Group :=
  { g with
    openRate := rateString g.opens g.count,
    clickRate := rateString g.clicks g.count,
    replyRate := rateString g.replies g.count }

/-- Stable insertion keeping the list sorted by `count` descending:
the inserted (originally earlier) element goes before every equal
count. -/
def insertByCount (g : Group) : List Group → List Group
  | [] => [g]
  | h :: t => if g.count < h.count then h :: insertByCount g t else g :: h :: t

/-- Model of the stable `Array.prototype.sort((a, b) => b.count -
a.count)`: stable sorting by a consistent comparator has a unique
result, computed here by stable insertion sort. -/
def sortGroups (gs : List Group) : List Group := gs.foldr insertByCount []

/-- Model of `analyzeEmails(emails)`. -/
def analyzeEmails (emails : List Row) : Report :=
  let st := analyzeState emails
  let totalEmails := emails.length
  let totalOpens := (emails.filter fun e => (calculateMetrics e).opened).length
  let totalClicks := (emails.filter fun e => (calculateMetrics e).clicked).length
  let totalReplies := (emails.filter fun e => (calculateMetrics e).replied).length
  { templateGroups := sortGroups (st.groups.map finalizeGroup),
    overall :=
      { totalEmails := totalEmails,
        totalOpens := totalOpens,
        totalClicks := totalClicks,
        totalReplies := totalReplies,
        openRate := overallRate totalOpens totalEmails,
        clickRate := overallRate totalClicks totalEmails,
        replyRate := overallRate totalReplies totalEmails },
    subjectAnalysis := st.subj }

/-! ### Concrete inputs named by the claims -/

/-- The end-to-end scenario CSV of the spec (header plus one row). -/
def c1csv : String :=
  "subject,body,opens,clicks,replies\n\"Test\",\"Noticed your recent growth. Wondering if you face challenges? We were able to help similar clients. Would you be open to a call?\",1,0,0"

/-- The body text of the end-to-end scenario row. -/
def c1body : String :=
  "Noticed your recent growth. Wondering if you face challenges? We were able to help similar clients. Would you be open to a call?"

/-- A one-column CSV whose data row is the quoted field with doubled
interior quotes from the round-trip property. -/
def c3csv : String := "body\n\"Hi, I said \"\"hello\"\"\""

/-! ### Supporting lemmas -/

theorem mem_dropLeadWs {c : Char} {l : List Char} (h : c ∈ dropLeadWs l) : c ∈ l := by
  induction l with
  | nil => simpa [dropLeadWs] using h
  | cons a t ih =>
    by_cases ha : a.isWhitespace
    · simp only [dropLeadWs, ha, if_pos] at h
      exact List.mem_cons_of_mem a (ih h)
    · simp only [dropLeadWs, ha] at h
      simpa using h

theorem mem_trimChars {c : Char} {l : List Char} (h : c ∈ trimChars l) : c ∈ l := by
  unfold trimChars at h
  rw [List.mem_reverse] at h
  have h2 := mem_dropLeadWs h
  rw [List.mem_reverse] at h2
  exact mem_dropLeadWs h2

theorem mem_stripOuterQuotes {c : Char} {l : List Char} (h : c ∈ stripOuterQuotes l) : c ∈ l := by
  have htail : ∀ x : List Char, c ∈ x.tail → c ∈ x := fun x hx => (List.tail_sublist x).subset hx
  have hdrop : ∀ x : List Char, c ∈ x.dropLast → c ∈ x :=
    fun x hx => (List.dropLast_sublist x).subset hx
  simp only [stripOuterQuotes] at h
  split at h
  · split at h
    · exact htail l (hdrop l.tail h)
    · exact htail l h
  · split at h
    · exact hdrop l h
    · exact h

theorem mem_cleanField {c : Char} {l : List Char} (h : c ∈ (cleanField l).data) : c ∈ l :=
  mem_trimChars (mem_stripOuterQuotes h)

/-- Invariant of the character scanner: no double quote ever enters a
completed value or the pending field. -/
def quoteFree (st : ScanSt) : Prop :=
  (∀ v ∈ st.values, '"' ∉ v.data) ∧ '"' ∉ st.current

theorem quoteFree_scanChar {st : ScanSt} (h : quoteFree st) (c : Char) :
    quoteFree (scanChar st c) := by
  obtain ⟨hv, hc⟩ := h
  unfold scanChar
  by_cases h1 : c = '"'
  · simpa [h1] using ⟨hv, hc⟩
  · simp only [h1, if_false]
    by_cases h2 : c = ',' ∧ st.inQuotes = false
    · refine if_pos h2 ▸ ⟨?_, by simp⟩
      intro v hv'
      rcases List.mem_append.mp hv' with h' | h'
      · exact hv v h'
      · simp only [List.mem_singleton] at h'
        subst h'
        intro hmem
        exact hc (mem_cleanField hmem)
    · refine if_neg h2 ▸ ⟨hv, ?_⟩
      intro hmem
      rcases List.mem_append.mp hmem with h' | h'
      · exact hc h'
      · simp only [List.mem_singleton] at h'
        exact h1 h'.symm

theorem quoteFree_scanLine {st : ScanSt} (h : quoteFree st) (line : List Char) :
    quoteFree (scanLine st line) := by
  unfold scanLine
  induction line generalizing st with
  | nil => exact h
  | cons c t ih => exact ih (quoteFree_scanChar h c)

theorem quoteFree_scanRecord {st : ScanSt} (h : quoteFree st) (ls : List (List Char)) :
    ∀ v ∈ (scanRecord st ls).1, '"' ∉ v.data := by
  induction ls generalizing st with
  | nil =>
    intro v hv
    simp only [scanRecord] at hv
    rcases List.mem_append.mp hv with h' | h'
    · exact h.1 v h'
    · simp only [List.mem_singleton] at h'
      subst h'
      exact fun hm => h.2 (mem_cleanField hm)
  | cons line rest ih =>
    intro v hv
    simp only [scanRecord] at hv
    have hl := quoteFree_scanLine h line
    split at hv
    · have hq : quoteFree
          { scanLine st line with current := (scanLine st line).current ++ ['\n'] } := by
        refine ⟨hl.1, ?_⟩
        intro hm
        rcases List.mem_append.mp hm with h' | h'
        · exact hl.2 h'
        · simp at h'
      exact ih hq v hv
    · rcases List.mem_append.mp hv with h' | h'
      · exact hl.1 v h'
      · simp only [List.mem_singleton] at h'
        subst h'
        exact fun hm => hl.2 (mem_cleanField hm)

theorem mkRow_snd_mem {headers values : List String} {p : String × String}
    (h : p ∈ mkRow headers values) : p.2 ∈ values ∨ p.2 = "" := by
  unfold mkRow at h
  rcases List.mem_map.mp h with ⟨q, _, hq⟩
  subst hq
  by_cases hi : q.1 < values.length
  · left
    rw [List.getD_eq_getElem values "" hi]
    exact values.getElem_mem hi
  · right
    simp [List.getD_eq_getElem?_getD, List.getElem?_eq_none (Nat.le_of_not_lt hi)]

theorem parseRowsF_quoteFree {headers : List String} {f : Nat} {lines : List (List Char)}
    {row : Row} (hrow : row ∈ parseRowsF headers f lines) {p : String × String}
    (hp : p ∈ row) : '"' ∉ p.2.data := by
  induction f generalizing lines row with
  | zero => simp [parseRowsF] at hrow
  | succ f ih =>
    cases lines with
    | nil => simp [parseRowsF] at hrow
    | cons line rest =>
      simp only [parseRowsF] at hrow
      have hvals : ∀ v ∈ (scanRecord ⟨[], [], false⟩ (line :: rest)).1, '"' ∉ v.data :=
        quoteFree_scanRecord ⟨by simp, by simp⟩ _
      split at hrow
      · rcases List.mem_cons.mp hrow with h' | h'
        · subst h'
          rcases mkRow_snd_mem hp with h2 | h2
          · exact hvals _ h2
          · simp [h2]
        · exact ih h' hp
      · exact ih hrow hp

theorem parseCSV_quoteFree {text : String} {row : Row} (hrow : row ∈ parseCSV text)
    {p : String × String} (hp : p ∈ row) : '"' ∉ p.2.data := by
  simp only [parseCSV, parseRows] at hrow
  split at hrow
  · simp at hrow
  · exact parseRowsF_quoteFree hrow hp

/-- The truthiness conjunct of the row filter is redundant: a
non-empty trimmed value forces a non-empty raw value. -/
theorem truthy_and_trim (s : String) :
    ((s != "") && decide (0 < (trimChars s.data).length)) =
      decide (0 < (trimChars s.data).length) := by
  by_cases h : s = ""
  · subst h; decide
  · simp [h]

/-! ### Claim theorems: C1, C3, C4, C5 -/

/-- C1: on the single-row CSV `subject,body,opens,clicks,replies` /
`"Test","Noticed your recent growth. ...",1,0,0`, the full pipeline
(`parseCSV` then `analyzeEmails`) classifies the row as
Research-Based Outreach with score 6 ≥ 4, the first three indicator
rules of that template each matching with weight 2, and the report
has that single group with count 1, opens 1, openRate `"100.0"` and
`overall.totalEmails = 1`. -/
theorem c1_end_to_end :
    (parseCSV c1csv).length = 1
    ∧ (analyzeTemplate c1body).type = "Research-Based Outreach"
    ∧ (analyzeTemplate c1body).score = 6
    ∧ 4 ≤ (analyzeTemplate c1body).score
    ∧ ((RESEARCH_BASED.indicators[0]?).map fun i => (i.test (preprocessBody c1body), i.weight))
        = some (true, 2)
    ∧ ((RESEARCH_BASED.indicators[1]?).map fun i => (i.test (preprocessBody c1body), i.weight))
        = some (true, 2)
    ∧ ((RESEARCH_BASED.indicators[2]?).map fun i => (i.test (preprocessBody c1body), i.weight))
        = some (true, 2)
    ∧ ((analyzeEmails (parseCSV c1csv)).templateGroups.map fun g =>
        (g.name, g.count, g.opens, g.openRate))
        = [("Research-Based Outreach", 1, 1, "100.0")]
    ∧ (analyzeEmails (parseCSV c1csv)).overall.totalEmails = 1 := by
  set_option maxRecDepth 100000 in decide

/-- C3 counterexample: the data row `"Hi, I said ""hello"""` parses to
the single field `Hi, I said hello`, not to `Hi, I said "hello"` —
the embedded quotes are dropped, so the claimed round-trip fails on
this concrete input. -/
theorem c3_counterexample :
    parseCSV c3csv = [[("body", "Hi, I said hello")]]
    ∧ rowGet ((parseCSV c3csv).headD []) "body" ≠ "Hi, I said \"hello\"" := by
  decide

/-- C3 amended: every `"` character of a data row merely toggles the
in-quotes flag and is consumed, so no parsed field value ever
contains a double quote; in particular `"Hi, I said ""hello"""`
parses to the single field `Hi, I said hello` (doubled interior
quotes are dropped, not preserved). -/
theorem c3_amended :
    (∀ (text : String) (row : Row), row ∈ parseCSV text →
      ∀ p ∈ row, '"' ∉ p.2.data)
    ∧ parseCSV c3csv = [[("body", "Hi, I said hello")]] :=
  ⟨fun _ _ hrow _ hp => parseCSV_quoteFree hrow hp, by decide⟩

/-- C3 amended, witnessed at the concrete round-trip input. -/
theorem c3_amended_witness :
    [("body", "Hi, I said hello")] ∈ parseCSV c3csv ∧ '"' ∉ "Hi, I said hello".data :=
  ⟨by decide, c3_amended.1 c3csv [("body", "Hi, I said hello")] (by decide)
    ("body", "Hi, I said hello") (by decide)⟩

/-- C5: a parsed row is retained iff one of body/subject/recipient is
non-empty after trimming and, when the trimmed body is non-empty, it
has at least 10 characters; concretely, the all-empty row is dropped,
the 5-character-body row is dropped, and the subject-only `Hi` row is
kept. -/
theorem c5_row_retention :
    (∀ r : Row, keepRow r =
      ((decide (0 < (trimChars (rowGet r "body").data).length)
        || decide (0 < (trimChars (rowGet r "subject").data).length)
        || decide (0 < (trimChars (rowGet r "recipient").data).length))
       && (!decide (0 < (trimChars (rowGet r "body").data).length)
        || decide (10 ≤ (trimChars (rowGet r "body").data).length))))
    ∧ parseCSV "body,subject,recipient\n,," = []
    ∧ parseCSV "body,subject,recipient\nshort,," = []
    ∧ parseCSV "body,subject,recipient\n,Hi," = [[("body", ""), ("subject", "Hi"), ("recipient", "")]] := by
  refine ⟨?_, by decide, by decide, by decide⟩
  intro r
  simp only [keepRow]
  rw [truthy_and_trim, truthy_and_trim, truthy_and_trim]

/-! ### Aggregation sum lemmas (for C2, C8, C10) -/

theorem updateGroups_sum_count (ty desc : String) (len : Nat) (m : Metrics) (d : EmailDetail)
    (gs : List Group) :
    ((updateGroups ty desc len m d gs).map (·.count)).sum = (gs.map (·.count)).sum + 1 := by
  induction gs with
  | nil => simp [updateGroups, bumpGroup, newGroup]
  | cons g t ih =>
    by_cases hg : g.name = ty
    · simp only [updateGroups, hg, if_pos, List.map_cons, List.sum_cons, bumpGroup]
      omega
    · simp only [updateGroups, hg, if_neg, not_false_iff, List.map_cons, List.sum_cons, ih]
      omega

theorem updateGroups_sum_opens (ty desc : String) (len : Nat) (m : Metrics) (d : EmailDetail)
    (gs : List Group) :
    ((updateGroups ty desc len m d gs).map (·.opens)).sum =
      (gs.map (·.opens)).sum + (if m.opened then 1 else 0) := by
  induction gs with
  | nil => simp [updateGroups, bumpGroup, newGroup]
  | cons g t ih =>
    by_cases hg : g.name = ty
    · simp only [updateGroups, hg, if_pos, List.map_cons, List.sum_cons, bumpGroup]
      omega
    · simp only [updateGroups, hg, if_neg, not_false_iff, List.map_cons, List.sum_cons, ih]
      omega

theorem updateGroups_sum_clicks (ty desc : String) (len : Nat) (m : Metrics) (d : EmailDetail)
    (gs : List Group) :
    ((updateGroups ty desc len m d gs).map (·.clicks)).sum =
      (gs.map (·.clicks)).sum + (if m.clicked then 1 else 0) := by
  induction gs with
  | nil => simp [updateGroups, bumpGroup, newGroup]
  | cons g t ih =>
    by_cases hg : g.name = ty
    · simp only [updateGroups, hg, if_pos, List.map_cons, List.sum_cons, bumpGroup]
      omega
    · simp only [updateGroups, hg, if_neg, not_false_iff, List.map_cons, List.sum_cons, ih]
      omega

theorem updateGroups_sum_replies (ty desc : String) (len : Nat) (m : Metrics) (d : EmailDetail)
    (gs : List Group) :
    ((updateGroups ty desc len m d gs).map (·.replies)).sum =
      (gs.map (·.replies)).sum + (if m.replied then 1 else 0) := by
  induction gs with
  | nil => simp [updateGroups, bumpGroup, newGroup]
  | cons g t ih =>
    by_cases hg : g.name = ty
    · simp only [updateGroups, hg, if_pos, List.map_cons, List.sum_cons, bumpGroup]
      omega
    · simp only [updateGroups, hg, if_neg, not_false_iff, List.map_cons, List.sum_cons, ih]
      omega

/-- The groups component of one `processEmail` step. -/
theorem processEmail_groups (st : AnalyzerState) (e : Row) :
    (processEmail st e).groups =
      updateGroups (analyzeTemplate (bodyField e)).type (analyzeTemplate (bodyField e)).description
        (bodyField e).data.length (calculateMetrics e)
        ⟨subjectField e, bodyField e, calculateMetrics e, sentDateField e, recipientField e⟩
        st.groups := by
  simp only [processEmail]

theorem foldl_sum_count (l : List Row) (st : AnalyzerState) :
    ((l.foldl processEmail st).groups.map (·.count)).sum =
      (st.groups.map (·.count)).sum + l.length := by
  induction l generalizing st with
  | nil => simp
  | cons e t ih =>
    rw [List.foldl_cons, ih, processEmail_groups, updateGroups_sum_count]
    simp only [List.length_cons]
    omega

theorem foldl_sum_opens (l : List Row) (st : AnalyzerState) :
    ((l.foldl processEmail st).groups.map (·.opens)).sum =
      (st.groups.map (·.opens)).sum +
        (l.filter fun e => (calculateMetrics e).opened).length := by
  induction l generalizing st with
  | nil => simp
  | cons e t ih =>
    rw [List.foldl_cons, ih, processEmail_groups, updateGroups_sum_opens]
    by_cases h : (calculateMetrics e).opened <;> simp [h] <;> omega

theorem foldl_sum_clicks (l : List Row) (st : AnalyzerState) :
    ((l.foldl processEmail st).groups.map (·.clicks)).sum =
      (st.groups.map (·.clicks)).sum +
        (l.filter fun e => (calculateMetrics e).clicked).length := by
  induction l generalizing st with
  | nil => simp
  | cons e t ih =>
    rw [List.foldl_cons, ih, processEmail_groups, updateGroups_sum_clicks]
    by_cases h : (calculateMetrics e).clicked <;> simp [h] <;> omega

theorem foldl_sum_replies (l : List Row) (st : AnalyzerState) :
    ((l.foldl processEmail st).groups.map (·.replies)).sum =
      (st.groups.map (·.replies)).sum +
        (l.filter fun e => (calculateMetrics e).replied).length := by
  induction l generalizing st with
  | nil => simp
  | cons e t ih =>
    rw [List.foldl_cons, ih, processEmail_groups, updateGroups_sum_replies]
    by_cases h : (calculateMetrics e).replied <;> simp [h] <;> omega

/-- Finalisation changes only the rate strings. -/
theorem map_proj_finalize (f : Group → Nat) (hf : ∀ g, f (finalizeGroup g) = f g)
    (gs : List Group) : (gs.map finalizeGroup).map f = gs.map f := by
  induction gs with
  | nil => rfl
  | cons g t ih => simp [hf, ih]

/-- Stable insertion only reorders, so projected sums are unchanged. -/
theorem insertByCount_sum (f : Group → Nat) (g : Group) (l : List Group) :
    ((insertByCount g l).map f).sum = f g + (l.map f).sum := by
  induction l with
  | nil => simp [insertByCount]
  | cons h t ih =>
    by_cases hc : g.count < h.count
    · simp only [insertByCount, hc, if_pos, List.map_cons, List.sum_cons, ih]
      omega
    · simp [insertByCount, hc]

theorem sortGroups_sum (f : Group → Nat) (gs : List Group) :
    ((sortGroups gs).map f).sum = (gs.map f).sum := by
  induction gs with
  | nil => rfl
  | cons g t ih =>
    simp only [sortGroups, List.foldr_cons] at *
    rw [insertByCount_sum, ih]
    simp

theorem analyzeEmails_groups (emails : List Row) :
    (analyzeEmails emails).templateGroups =
      sortGroups ((analyzeState emails).groups.map finalizeGroup) := rfl

/-! ### C2: partition of rows over template groups -/

/-- C2: for every input list, the groups partition the rows — the sum
of `group.count` equals `overall.totalEmails`, and the sums of the
binary `group.opens` / `clicks` / `replies` equal the independently
recomputed `overall.totalOpens` / `totalClicks` / `totalReplies`. -/
theorem c2_group_partition (emails : List Row) :
    (((analyzeEmails emails).templateGroups.map (·.count)).sum
        = (analyzeEmails emails).overall.totalEmails)
    ∧ (((analyzeEmails emails).templateGroups.map (·.opens)).sum
        = (analyzeEmails emails).overall.totalOpens)
    ∧ (((analyzeEmails emails).templateGroups.map (·.clicks)).sum
        = (analyzeEmails emails).overall.totalClicks)
    ∧ (((analyzeEmails emails).templateGroups.map (·.replies)).sum
        = (analyzeEmails emails).overall.totalReplies) := by
  refine ⟨?_, ?_, ?_, ?_⟩ <;>
    rw [analyzeEmails_groups, sortGroups_sum]
  · rw [map_proj_finalize (·.count) (fun g => rfl)]
    show ((analyzeState emails).groups.map (·.count)).sum = emails.length
    rw [analyzeState, foldl_sum_count]
    simp [initState]
  · rw [map_proj_finalize (·.opens) (fun g => rfl)]
    show ((analyzeState emails).groups.map (·.opens)).sum
      = (emails.filter fun e => (calculateMetrics e).opened).length
    rw [analyzeState, foldl_sum_opens]
    simp [initState]
  · rw [map_proj_finalize (·.clicks) (fun g => rfl)]
    show ((analyzeState emails).groups.map (·.clicks)).sum
      = (emails.filter fun e => (calculateMetrics e).clicked).length
    rw [analyzeState, foldl_sum_clicks]
    simp [initState]
  · rw [map_proj_finalize (·.replies) (fun g => rfl)]
    show ((analyzeState emails).groups.map (·.replies)).sum
      = (emails.filter fun e => (calculateMetrics e).replied).length
    rw [analyzeState, foldl_sum_replies]
    simp [initState]

/-! ### Subject bucket lemmas (for C10) -/

/-- Shorthand for the question predicate of a row. -/
def rowHasQ (e : Row) : Bool := (analyzeSubject (subjectField e)).hasQuestion

/-- Shorthand for the short-subject predicate of a row. -/
def rowShort (e : Row) : Bool := decide ((analyzeSubject (subjectField e)).length < 40)

theorem processEmail_withQuestion (st : AnalyzerState) (e : Row) :
    (processEmail st e).subj.withQuestion.total =
      st.subj.withQuestion.total + (if rowHasQ e then 1 else 0) := by
  simp only [processEmail, rowHasQ]
  by_cases h1 : (analyzeSubject (subjectField e)).hasQuestion <;>
    by_cases h2 : (analyzeSubject (subjectField e)).length < 40 <;>
    simp [h1, h2, bumpBucket]

theorem processEmail_withoutQuestion (st : AnalyzerState) (e : Row) :
    (processEmail st e).subj.withoutQuestion.total =
      st.subj.withoutQuestion.total + (if rowHasQ e then 0 else 1) := by
  simp only [processEmail, rowHasQ]
  by_cases h1 : (analyzeSubject (subjectField e)).hasQuestion <;>
    by_cases h2 : (analyzeSubject (subjectField e)).length < 40 <;>
    simp [h1, h2, bumpBucket]

theorem processEmail_shortSubject (st : AnalyzerState) (e : Row) :
    (processEmail st e).subj.shortSubject.total =
      st.subj.shortSubject.total + (if rowShort e then 1 else 0) := by
  simp only [processEmail, rowShort]
  by_cases h1 : (analyzeSubject (subjectField e)).hasQuestion <;>
    by_cases h2 : (analyzeSubject (subjectField e)).length < 40 <;>
    simp [h1, h2, bumpBucket]

theorem processEmail_longSubject (st : AnalyzerState) (e : Row) :
    (processEmail st e).subj.longSubject.total =
      st.subj.longSubject.total + (if rowShort e then 0 else 1) := by
  simp only [processEmail, rowShort]
  by_cases h1 : (analyzeSubject (subjectField e)).hasQuestion <;>
    by_cases h2 : (analyzeSubject (subjectField e)).length < 40 <;>
    simp [h1, h2, bumpBucket]

theorem foldl_withQuestion (l : List Row) (st : AnalyzerState) :
    (l.foldl processEmail st).subj.withQuestion.total =
      st.subj.withQuestion.total + (l.filter rowHasQ).length := by
  induction l generalizing st with
  | nil => simp
  | cons e t ih =>
    rw [List.foldl_cons, ih, processEmail_withQuestion]
    by_cases h : rowHasQ e <;> simp [h] <;> omega

theorem foldl_withoutQuestion (l : List Row) (st : AnalyzerState) :
    (l.foldl processEmail st).subj.withoutQuestion.total =
      st.subj.withoutQuestion.total + (l.filter fun e => !rowHasQ e).length := by
  induction l generalizing st with
  | nil => simp
  | cons e t ih =>
    rw [List.foldl_cons, ih, processEmail_withoutQuestion]
    by_cases h : rowHasQ e <;> simp [h] <;> omega

theorem foldl_shortSubject (l : List Row) (st : AnalyzerState) :
    (l.foldl processEmail st).subj.shortSubject.total =
      st.subj.shortSubject.total + (l.filter rowShort).length := by
  induction l generalizing st with
  | nil => simp
  | cons e t ih =>
    rw [List.foldl_cons, ih, processEmail_shortSubject]
    by_cases h : rowShort e <;> simp [h] <;> omega

theorem foldl_longSubject (l : List Row) (st : AnalyzerState) :
    (l.foldl processEmail st).subj.longSubject.total =
      st.subj.longSubject.total + (l.filter fun e => !rowShort e).length := by
  induction l generalizing st with
  | nil => simp
  | cons e t ih =>
    rw [List.foldl_cons, ih, processEmail_longSubject]
    by_cases h : rowShort e <;> simp [h] <;> omega

theorem analyzeEmails_subj (emails : List Row) :
    (analyzeEmails emails).subjectAnalysis = (analyzeState emails).subj := rfl

theorem length_filter_add_length_filter_not (p : Row → Bool) (l : List Row) :
    (l.filter p).length + (l.filter fun e => !p e).length = l.length := by
  induction l with
  | nil => rfl
  | cons e t ih =>
    by_cases h : p e <;> simp [h, List.filter_cons] <;> omega

/-! ### C10: every row lands in exactly one question bucket and one
length bucket -/

/-- C10: the two question buckets and the two length buckets each
partition the rows (`withQuestion.total + withoutQuestion.total =
shortSubject.total + longSubject.total = number of rows`), and a row
with an empty (or missing) subject is counted in `withoutQuestion`
and in `shortSubject`: inserting such a row increments exactly those
two totals. -/
theorem c10_bucket_partition (pre post : List Row) (r : Row)
    (h : subjectField r = "") :
    (∀ emails : List Row,
      (analyzeEmails emails).subjectAnalysis.withQuestion.total
        + (analyzeEmails emails).subjectAnalysis.withoutQuestion.total = emails.length)
    ∧ (∀ emails : List Row,
      (analyzeEmails emails).subjectAnalysis.shortSubject.total
        + (analyzeEmails emails).subjectAnalysis.longSubject.total = emails.length)
    ∧ (analyzeEmails (pre ++ r :: post)).subjectAnalysis.withoutQuestion.total
        = (analyzeEmails (pre ++ post)).subjectAnalysis.withoutQuestion.total + 1
    ∧ (analyzeEmails (pre ++ r :: post)).subjectAnalysis.shortSubject.total
        = (analyzeEmails (pre ++ post)).subjectAnalysis.shortSubject.total + 1 := by
  have hq : rowHasQ r = false := by
    simp [rowHasQ, h, analyzeSubject]
  have hs : rowShort r = true := by
    simp [rowShort, h, analyzeSubject]
  refine ⟨?_, ?_, ?_, ?_⟩
  · intro emails
    rw [analyzeEmails_subj, analyzeState, foldl_withQuestion, foldl_withoutQuestion]
    have := length_filter_add_length_filter_not rowHasQ emails
    simp only [initState] at *
    omega
  · intro emails
    rw [analyzeEmails_subj, analyzeState, foldl_shortSubject, foldl_longSubject]
    have := length_filter_add_length_filter_not rowShort emails
    simp only [initState] at *
    omega
  · rw [analyzeEmails_subj, analyzeEmails_subj, analyzeState, analyzeState,
      foldl_withoutQuestion, foldl_withoutQuestion]
    simp only [List.filter_append, List.filter_cons, hq, Bool.not_false, if_true,
      List.length_append, List.length_cons]
    omega
  · rw [analyzeEmails_subj, analyzeEmails_subj, analyzeState, analyzeState,
      foldl_shortSubject, foldl_shortSubject]
    simp only [List.filter_append, List.filter_cons, hs, if_true,
      List.length_append, List.length_cons]
    omega

/-- C10, witnessed at the empty row (no subject column at all). -/
theorem c10_bucket_partition_witness :
    (analyzeEmails [([] : Row)]).subjectAnalysis.withoutQuestion.total
        = (analyzeEmails []).subjectAnalysis.withoutQuestion.total + 1
    ∧ (analyzeEmails [([] : Row)]).subjectAnalysis.shortSubject.total
        = (analyzeEmails []).subjectAnalysis.shortSubject.total + 1 := by
  have h := c10_bucket_partition [] [] ([] : Row) (by decide)
  exact ⟨h.2.2.1, h.2.2.2⟩

/-! ### Classifier scoring-loop lemmas (for C6) -/

/-- The scoring loop never returns a score below the running best,
and dominates the score of every qualifying template it visits. -/
theorem runRegistry_max (text : List Char) (ts : List Template) :
    ∀ (hi : Nat) (best : Option (Template × Nat)),
      (∀ p, best = some p → p.2 = hi) →
      ∀ t s, runRegistry text ts hi best = some (t, s) →
        hi ≤ s ∧ ∀ u ∈ ts, u.minScore ≤ scoreTemplate u text → scoreTemplate u text ≤ s := by
  induction ts with
  | nil =>
    intro hi best hb t s hrun
    simp only [runRegistry] at hrun
    have hs := hb (t, s) hrun
    refine ⟨le_of_eq hs.symm, ?_⟩
    intro u hu
    simp at hu
  | cons t' rest ih =>
    intro hi best hb t s hrun
    simp only [runRegistry] at hrun
    by_cases hc : t'.minScore ≤ scoreTemplate t' text ∧ hi < scoreTemplate t' text
    · rw [if_pos hc] at hrun
      have hb' : ∀ p, (some (t', scoreTemplate t' text) : Option (Template × Nat)) = some p →
          p.2 = scoreTemplate t' text := by
        intro p hp
        cases hp
        rfl
      obtain ⟨hss, hrest⟩ := ih (scoreTemplate t' text) _ hb' t s hrun
      refine ⟨le_trans (le_of_lt hc.2) hss, ?_⟩
      intro u hu hq
      rcases List.mem_cons.mp hu with h' | h'
      · exact h' ▸ hss
      · exact hrest u h' hq
    · rw [if_neg hc] at hrun
      obtain ⟨hhi, hrest⟩ := ih hi best hb t s hrun
      refine ⟨hhi, ?_⟩
      intro u hu hq
      rcases List.mem_cons.mp hu with h' | h'
      · subst h'
        have hnlt : ¬ hi < scoreTemplate u text := fun hlt => hc ⟨hq, hlt⟩
        exact le_trans (Nat.le_of_not_lt hnlt) hhi
      · exact hrest u h' hq

/-- Where the result of the scoring loop comes from: either the
incoming best survives, or the winner sits in the visited list with
its own qualifying score, strictly above the incoming best and
strictly above every qualifying template registered before it. -/
theorem runRegistry_origin (text : List Char) (ts : List Template) :
    ∀ (hi : Nat) (best : Option (Template × Nat)),
      (∀ p, best = some p → p.2 = hi) →
      ∀ t s, runRegistry text ts hi best = some (t, s) →
        best = some (t, s) ∨
        ∃ pre suf, ts = pre ++ t :: suf ∧ s = scoreTemplate t text ∧ t.minScore ≤ s ∧ hi < s ∧
          ∀ u ∈ pre, u.minScore ≤ scoreTemplate u text → scoreTemplate u text < s := by
  induction ts with
  | nil =>
    intro hi best hb t s hrun
    left
    simpa [runRegistry] using hrun
  | cons t' rest ih =>
    intro hi best hb t s hrun
    simp only [runRegistry] at hrun
    by_cases hc : t'.minScore ≤ scoreTemplate t' text ∧ hi < scoreTemplate t' text
    · rw [if_pos hc] at hrun
      have hb' : ∀ p, (some (t', scoreTemplate t' text) : Option (Template × Nat)) = some p →
          p.2 = scoreTemplate t' text := by
        intro p hp
        cases hp
        rfl
      rcases ih (scoreTemplate t' text) _ hb' t s hrun with
        h | ⟨pre, suf, hsplit, hscore, hmin, hlt, hpre⟩
      · right
        injection h with h2
        injection h2 with ht hs
        subst ht
        refine ⟨[], rest, by simp, hs.symm, hs ▸ hc.1, hs ▸ hc.2, by simp⟩
      · right
        refine ⟨t' :: pre, suf, by rw [hsplit]; rfl, hscore, hmin, lt_trans hc.2 hlt, ?_⟩
        intro u hu hq
        rcases List.mem_cons.mp hu with h' | h'
        · exact h' ▸ hlt
        · exact hpre u h' hq
    · rw [if_neg hc] at hrun
      rcases ih hi best hb t s hrun with h | ⟨pre, suf, hsplit, hscore, hmin, hlt, hpre⟩
      · left
        exact h
      · right
        refine ⟨t' :: pre, suf, by rw [hsplit]; rfl, hscore, hmin, hlt, ?_⟩
        intro u hu hq
        rcases List.mem_cons.mp hu with h' | h'
        · subst h'
          have hnlt : ¬ hi < scoreTemplate u text := fun hlt' => hc ⟨hq, hlt'⟩
          exact lt_of_le_of_lt (Nat.le_of_not_lt hnlt) hlt
        · exact hpre u h' hq

/-! ### C6: qualification, maximality and first-registered tie-break -/

/-- C6: for a non-empty body, whenever the classifier returns a
registry template's result, that template's score is its indicator
weight sum and is at least its declared `minScore`; it dominates the
score of every qualifying template of the registry, and it strictly
beats every qualifying template registered before it (so on a tie the
first-registered template wins). -/
theorem c6_classifier_best (body : String) (t : Template) (s : Nat)
    (hne : (trimChars body.data).length ≠ 0)
    (hres : pickBest (preprocessBody body) = some (t, s)) :
    analyzeTemplate body = ⟨t.name, s, t.description⟩
    ∧ s = scoreTemplate t (preprocessBody body)
    ∧ t.minScore ≤ s
    ∧ (∀ u ∈ TEMPLATES, u.minScore ≤ scoreTemplate u (preprocessBody body) →
        scoreTemplate u (preprocessBody body) ≤ s)
    ∧ ∃ pre suf, TEMPLATES = pre ++ t :: suf
        ∧ ∀ u ∈ pre, u.minScore ≤ scoreTemplate u (preprocessBody body) →
            scoreTemplate u (preprocessBody body) < s := by
  have hcond : ¬(body = "" ∨ (trimChars body.data).length = 0) := by
    rintro (h | h)
    · subst h
      exact hne (by decide)
    · exact hne h
  have hb0 : ∀ p, (none : Option (Template × Nat)) = some p → p.2 = 0 := by
    intro p hp
    cases hp
  have hmax := runRegistry_max (preprocessBody body) TEMPLATES 0 none hb0 t s hres
  rcases runRegistry_origin (preprocessBody body) TEMPLATES 0 none hb0 t s hres with
    h | ⟨pre, suf, hsplit, hscore, hmin, _, hpre⟩
  · cases h
  refine ⟨?_, hscore, hmin, hmax.2, pre, suf, hsplit, hpre⟩
  unfold analyzeTemplate
  rw [if_neg hcond]
  simp only [hres]

/-- C6, witnessed on a follow-up body: the registry returns the
Follow-Up template with score 5. -/
theorem c6_classifier_best_witness :
    analyzeTemplate "Following up on our earlier conversation." = ⟨"Follow-Up", 5, FOLLOW_UP.description⟩
    ∧ FOLLOW_UP.minScore ≤ 5 :=
  have h := c6_classifier_best "Following up on our earlier conversation." FOLLOW_UP 5
    (by decide) (by rfl)
  ⟨h.1, h.2.2.1⟩

/-! ### Row update and congruence lemmas (for C8) -/

/-- JS assignment `row[k] = v`: append a binding; `rowGet` reads the
last one. -/
def setRowKey (r : Row) (k v : String) : Row := r ++ [(k, v)]

theorem rowGet_setRowKey_same (r : Row) (k v : String) :
    rowGet (setRowKey r k v) k = v := by
  simp [rowGet, setRowKey, rowGetRev]

theorem rowGet_setRowKey_ne (r : Row) (k v k' : String) (h : k ≠ k') :
    rowGet (setRowKey r k v) k' = rowGet r k' := by
  simp [rowGet, setRowKey, rowGetRev, h]

theorem firstNonEmpty_congr {r r' : Row} (ks : List String)
    (h : ∀ k ∈ ks, rowGet r k = rowGet r' k) :
    firstNonEmpty r ks = firstNonEmpty r' ks := by
  induction ks with
  | nil => rfl
  | cons k t ih =>
    have hk := h k (List.mem_cons_self k t)
    have ht := ih fun k' hk' => h k' (List.mem_cons_of_mem k hk')
    simp only [firstNonEmpty, hk, ht]

theorem chainGet_congr {r r' : Row} (ks : List String)
    (h : ∀ k ∈ ks, rowGet r k = rowGet r' k) : chainGet r ks = chainGet r' ks := by
  unfold chainGet
  rw [firstNonEmpty_congr ks h]

/-- Setting one metric key leaves every alias chain that avoids it
alone. -/
theorem chainGet_setRowKey_other (r : Row) (k0 v : String) (ks : List String)
    (hk : ∀ k ∈ ks, k ≠ k0) :
    chainGet (setRowKey r k0 v) ks = chainGet r ks :=
  chainGet_congr ks fun k hmem => rowGet_setRowKey_ne r k0 v k (fun h => hk k hmem h.symm)

theorem jsParseIntS_of_empty : jsParseIntS "" = none := by decide

/-- A parsable value is in particular non-empty. -/
theorem ne_empty_of_parse {s : String} {v : Int} (hp : jsParseIntS s = some v) : s ≠ "" := by
  intro h
  rw [h, jsParseIntS_of_empty] at hp
  cases hp

/-- A metric chain avoiding the set key is unchanged. -/
theorem metricVal_setRowKey_ne (r : Row) (k0 v : String) (ks : List String)
    (hk : ∀ k ∈ ks, k ≠ k0) :
    metricVal (setRowKey r k0 v) ks = metricVal r ks := by
  unfold metricVal
  rw [firstNonEmpty_congr ks fun k hm => rowGet_setRowKey_ne r k0 v k fun h => hk k hm h.symm]

/-- A metric chain headed by the set key parses the new value. -/
theorem metricVal_setRowKey_head (r : Row) (k0 s : String) (v : Int) (ks : List String)
    (hp : jsParseIntS s = some v) :
    metricVal (setRowKey r k0 s) (k0 :: ks) = some v := by
  have hsne : s ≠ "" := ne_empty_of_parse hp
  have hfne : firstNonEmpty (setRowKey r k0 s) (k0 :: ks) = some s := by
    simp [firstNonEmpty, rowGet_setRowKey_same, hsne]
  unfold metricVal
  rw [hfne]
  exact hp

/-- The components of `calculateMetrics` after setting the `opens`
key to a parsable value. -/
theorem calculateMetrics_setOpens (r : Row) (s : String) (v : Int)
    (hp : jsParseIntS s = some v) :
    (calculateMetrics (setRowKey r "opens" s)).opens = some v
    ∧ (calculateMetrics (setRowKey r "opens" s)).opened = decide (0 < v)
    ∧ (calculateMetrics (setRowKey r "opens" s)).clicked = (calculateMetrics r).clicked
    ∧ (calculateMetrics (setRowKey r "opens" s)).replied = (calculateMetrics r).replied := by
  have h1 := metricVal_setRowKey_head r "opens" s v ["Opens", "opened", "Opened"] hp
  have h2 := metricVal_setRowKey_ne r "opens" s ["clicks", "Clicks", "clicked", "Clicked"]
    (by decide)
  have h3 := metricVal_setRowKey_ne r "opens" s ["replies", "Replies", "replied", "Replied"]
    (by decide)
  refine ⟨?_, ?_, ?_, ?_⟩ <;>
    simp [calculateMetrics, h1, h2, h3, optPos]

/-- The components of `calculateMetrics` after setting the `clicks`
key to a parsable value. -/
theorem calculateMetrics_setClicks (r : Row) (s : String) (v : Int)
    (hp : jsParseIntS s = some v) :
    (calculateMetrics (setRowKey r "clicks" s)).clicks = some v
    ∧ (calculateMetrics (setRowKey r "clicks" s)).clicked = decide (0 < v)
    ∧ (calculateMetrics (setRowKey r "clicks" s)).opened = (calculateMetrics r).opened
    ∧ (calculateMetrics (setRowKey r "clicks" s)).replied = (calculateMetrics r).replied := by
  have h1 := metricVal_setRowKey_head r "clicks" s v ["Clicks", "clicked", "Clicked"] hp
  have h2 := metricVal_setRowKey_ne r "clicks" s ["opens", "Opens", "opened", "Opened"]
    (by decide)
  have h3 := metricVal_setRowKey_ne r "clicks" s ["replies", "Replies", "replied", "Replied"]
    (by decide)
  refine ⟨?_, ?_, ?_, ?_⟩ <;>
    simp [calculateMetrics, h1, h2, h3, optPos]

/-- The components of `calculateMetrics` after setting the `replies`
key to a parsable value. -/
theorem calculateMetrics_setReplies (r : Row) (s : String) (v : Int)
    (hp : jsParseIntS s = some v) :
    (calculateMetrics (setRowKey r "replies" s)).replies = some v
    ∧ (calculateMetrics (setRowKey r "replies" s)).replied = decide (0 < v)
    ∧ (calculateMetrics (setRowKey r "replies" s)).opened = (calculateMetrics r).opened
    ∧ (calculateMetrics (setRowKey r "replies" s)).clicked = (calculateMetrics r).clicked := by
  have h1 := metricVal_setRowKey_head r "replies" s v ["Replies", "replied", "Replied"] hp
  have h2 := metricVal_setRowKey_ne r "replies" s ["opens", "Opens", "opened", "Opened"]
    (by decide)
  have h3 := metricVal_setRowKey_ne r "replies" s ["clicks", "Clicks", "clicked", "Clicked"]
    (by decide)
  refine ⟨?_, ?_, ?_, ?_⟩ <;>
    simp [calculateMetrics, h1, h2, h3, optPos]

/-! ### Stripped report (detail records and raw counts erased) -/

/-- A group without its per-email detail list. -/
structure GroupS where
  name : String
  description : String
  count : Nat
  opens : Nat
  clicks : Nat
  replies : Nat
  avgLength : Nat
  totalLength : Nat
  openRate : String
  clickRate : String
  replyRate : String
deriving DecidableEq

def stripGroup (g : Group) : GroupS :=
  ⟨g.name, g.description, g.count, g.opens, g.clicks, g.replies,
   g.avgLength, g.totalLength, g.openRate, g.clickRate, g.replyRate⟩

/-- The report with the per-email detail lists (the only place the
raw opens count survives) erased. -/
structure ReportS where
  templateGroups : List GroupS
  overall : Overall
  subjectAnalysis : SubjectAnalysis
deriving DecidableEq

def stripReport (rep : Report) : ReportS :=
  ⟨rep.templateGroups.map stripGroup, rep.overall, rep.subjectAnalysis⟩

theorem stripGroup_bump {g g' : Group} (h : stripGroup g = stripGroup g')
    (len : Nat) {m m' : Metrics} (hm1 : m.opened = m'.opened) (hm2 : m.clicked = m'.clicked)
    (hm3 : m.replied = m'.replied) (d d' : EmailDetail) :
    stripGroup (bumpGroup g len m d) = stripGroup (bumpGroup g' len m' d') := by
  simp only [stripGroup, GroupS.mk.injEq] at h
  obtain ⟨h1, h2, h3, h4, h5, h6, h7, h8, h9, h10, h11⟩ := h
  simp [bumpGroup, stripGroup, GroupS.mk.injEq, h1, h2, h3, h4, h5, h6, h7, h8, h9, h10, h11,
    hm1, hm2, hm3]

theorem stripGroup_name {g g' : Group} (h : stripGroup g = stripGroup g') :
    g.name = g'.name := congrArg GroupS.name h

theorem updateGroups_strip {gs gs' : List Group}
    (h : gs.map stripGroup = gs'.map stripGroup) (ty desc : String) (len : Nat)
    {m m' : Metrics} (hm1 : m.opened = m'.opened) (hm2 : m.clicked = m'.clicked)
    (hm3 : m.replied = m'.replied) (d d' : EmailDetail) :
    (updateGroups ty desc len m d gs).map stripGroup
      = (updateGroups ty desc len m' d' gs').map stripGroup := by
  induction gs generalizing gs' with
  | nil =>
    cases gs' with
    | nil =>
      simp only [updateGroups, List.map_cons, List.map_nil]
      rw [stripGroup_bump rfl len hm1 hm2 hm3 d d']
    | cons g' t' => simp at h
  | cons g t ih =>
    cases gs' with
    | nil => simp at h
    | cons g' t' =>
      simp only [List.map_cons, List.cons.injEq] at h
      obtain ⟨hg, ht⟩ := h
      by_cases hname : g.name = ty
      · rw [updateGroups, updateGroups, if_pos hname, if_pos (stripGroup_name hg ▸ hname)]
        simp only [List.map_cons]
        rw [stripGroup_bump hg len hm1 hm2 hm3 d d', ht]
      · rw [updateGroups, updateGroups, if_neg hname, if_neg (stripGroup_name hg ▸ hname)]
        simp only [List.map_cons]
        rw [hg, ih ht]

/-- One step of the pass preserves the stripped state, for rows that
agree on everything except possibly the raw metric counts. -/
theorem processEmail_strip {st st' : AnalyzerState} {e e' : Row}
    (hg : st.groups.map stripGroup = st'.groups.map stripGroup) (hs : st.subj = st'.subj)
    (hbody : bodyField e = bodyField e') (hsub : subjectField e = subjectField e')
    (hm1 : (calculateMetrics e).opened = (calculateMetrics e').opened)
    (hm2 : (calculateMetrics e).clicked = (calculateMetrics e').clicked)
    (hm3 : (calculateMetrics e).replied = (calculateMetrics e').replied) :
    (processEmail st e).groups.map stripGroup = (processEmail st' e').groups.map stripGroup
    ∧ (processEmail st e).subj = (processEmail st' e').subj := by
  constructor
  · rw [processEmail_groups, processEmail_groups, hbody]
    exact updateGroups_strip hg _ _ _ hm1 hm2 hm3 _ _
  · simp only [processEmail]
    rw [hsub, hs, hm1]

theorem foldl_strip (l : List Row) {st st' : AnalyzerState}
    (hg : st.groups.map stripGroup = st'.groups.map stripGroup) (hs : st.subj = st'.subj) :
    (l.foldl processEmail st).groups.map stripGroup
      = (l.foldl processEmail st').groups.map stripGroup
    ∧ (l.foldl processEmail st).subj = (l.foldl processEmail st').subj := by
  induction l generalizing st st' with
  | nil => exact ⟨hg, hs⟩
  | cons e t ih =>
    have hstep := @processEmail_strip st st' e e hg hs rfl rfl rfl rfl rfl
    exact ih hstep.1 hstep.2

/-- Finalisation commutes with stripping. -/
def finalizeGroupS (g : GroupS) : GroupS :=
  { g with
    openRate := rateString g.opens g.count,
    clickRate := rateString g.clicks g.count,
    replyRate := rateString g.replies g.count }

theorem stripGroup_finalize (g : Group) :
    stripGroup (finalizeGroup g) = finalizeGroupS (stripGroup g) := rfl

theorem map_strip_finalize (gs : List Group) :
    (gs.map finalizeGroup).map stripGroup = (gs.map stripGroup).map finalizeGroupS := by
  induction gs with
  | nil => rfl
  | cons g t ih => simp [stripGroup_finalize, ih]

/-- Stable insertion on stripped groups. -/
def insertByCountS (g : GroupS) : List GroupS → List GroupS
  | [] => [g]
  | h :: t => if g.count < h.count then h :: insertByCountS g t else g :: h :: t

def sortGroupsS (gs : List GroupS) : List GroupS := gs.foldr insertByCountS []

theorem map_strip_insert (g : Group) (l : List Group) :
    (insertByCount g l).map stripGroup = insertByCountS (stripGroup g) (l.map stripGroup) := by
  induction l with
  | nil => rfl
  | cons h t ih =>
    by_cases hc : g.count < h.count
    · simp only [insertByCount, hc, if_pos, List.map_cons, ih, insertByCountS]
      rw [if_pos (show (stripGroup g).count < (stripGroup h).count from hc)]
    · simp only [insertByCount, hc, if_neg, not_false_iff, List.map_cons, insertByCountS]
      rw [if_neg (show ¬(stripGroup g).count < (stripGroup h).count from hc)]

theorem map_strip_sort (gs : List Group) :
    (sortGroups gs).map stripGroup = sortGroupsS (gs.map stripGroup) := by
  induction gs with
  | nil => rfl
  | cons g t ih =>
    simp only [sortGroups, sortGroupsS, List.foldr_cons, List.map_cons] at *
    rw [map_strip_insert, ih]

/-! ### C8: binary-counting idempotence -/

/-- Binary idempotence for the opens metric: any positive opens value contributes exactly like opens = 1. -/
theorem binaryIdem_opens (r : Row) (pre post : List Row) (s : String) (v : Int)
    (hv : 0 < v) (hp : jsParseIntS s = some v) :
    (calculateMetrics (setRowKey r "opens" s)).opened = true
    ∧ (calculateMetrics (setRowKey r "opens" "1")).opened = true
    ∧ stripReport (analyzeEmails (pre ++ setRowKey r "opens" s :: post))
        = stripReport (analyzeEmails (pre ++ setRowKey r "opens" "1" :: post))
    ∧ (analyzeEmails (pre ++ setRowKey r "opens" s :: post)).overall.totalOpens
        = (analyzeEmails (pre ++ post)).overall.totalOpens + 1
    ∧ ((analyzeEmails (pre ++ setRowKey r "opens" s :: post)).templateGroups.map (·.opens)).sum
        = ((analyzeEmails (pre ++ post)).templateGroups.map (·.opens)).sum + 1 := by
  obtain ⟨_, hflag, hoc, hor⟩ := calculateMetrics_setOpens r s v hp
  obtain ⟨_, hflag1, hoc1, hor1⟩ := calculateMetrics_setOpens r "1" 1 (by decide)
  have hvpos : decide (0 < v) = true := decide_eq_true hv
  have hflagT : (calculateMetrics (setRowKey r "opens" s)).opened = true := by
    rw [hflag, hvpos]
  have hflagT1 : (calculateMetrics (setRowKey r "opens" "1")).opened = true := by
    rw [hflag1]
    decide
  have hbody : bodyField (setRowKey r "opens" s) = bodyField (setRowKey r "opens" "1") := by
    unfold bodyField
    rw [chainGet_setRowKey_other r "opens" s _ (by decide),
      chainGet_setRowKey_other r "opens" "1" _ (by decide)]
  have hsub : subjectField (setRowKey r "opens" s)
      = subjectField (setRowKey r "opens" "1") := by
    unfold subjectField
    rw [chainGet_setRowKey_other r "opens" s _ (by decide),
      chainGet_setRowKey_other r "opens" "1" _ (by decide)]
  have hm1 : (calculateMetrics (setRowKey r "opens" s)).opened
      = (calculateMetrics (setRowKey r "opens" "1")).opened := by rw [hflagT, hflagT1]
  have hm2 : (calculateMetrics (setRowKey r "opens" s)).clicked
      = (calculateMetrics (setRowKey r "opens" "1")).clicked := by rw [hoc, hoc1]
  have hm3 : (calculateMetrics (setRowKey r "opens" s)).replied
      = (calculateMetrics (setRowKey r "opens" "1")).replied := by rw [hor, hor1]
  -- the aggregation states after the prefix are literally equal
  have hpre := @foldl_strip pre initState initState rfl rfl
  have hstep := processEmail_strip hpre.1 hpre.2 hbody hsub hm1 hm2 hm3
  have hfold := foldl_strip post hstep.1 hstep.2
  have hstate1 : analyzeState (pre ++ setRowKey r "opens" s :: post)
      = (post.foldl processEmail (processEmail (pre.foldl processEmail initState)
          (setRowKey r "opens" s))) := by
    simp [analyzeState, List.foldl_append]
  have hstate2 : analyzeState (pre ++ setRowKey r "opens" "1" :: post)
      = (post.foldl processEmail (processEmail (pre.foldl processEmail initState)
          (setRowKey r "opens" "1"))) := by
    simp [analyzeState, List.foldl_append]
  have hgroups : (analyzeState (pre ++ setRowKey r "opens" s :: post)).groups.map stripGroup
      = (analyzeState (pre ++ setRowKey r "opens" "1" :: post)).groups.map stripGroup := by
    rw [hstate1, hstate2]
    exact hfold.1
  have hsubj : (analyzeState (pre ++ setRowKey r "opens" s :: post)).subj
      = (analyzeState (pre ++ setRowKey r "opens" "1" :: post)).subj := by
    rw [hstate1, hstate2]
    exact hfold.2
  have hfiltV : ∀ x : Row, (pre ++ x :: post).filter (fun e => (calculateMetrics e).opened)
      = pre.filter (fun e => (calculateMetrics e).opened)
        ++ ((if (calculateMetrics x).opened then [x] else [])
        ++ post.filter (fun e => (calculateMetrics e).opened)) := by
    intro x
    simp only [List.filter_append, List.filter_cons]
    by_cases hx : (calculateMetrics x).opened <;> simp [hx]
  refine ⟨hflagT, hflagT1, ?_, ?_, ?_⟩
  · -- stripped reports agree
    have hlen : (pre ++ setRowKey r "opens" s :: post).length
        = (pre ++ setRowKey r "opens" "1" :: post).length := by simp
    have hfo : ((pre ++ setRowKey r "opens" s :: post).filter
          fun e => (calculateMetrics e).opened).length
        = ((pre ++ setRowKey r "opens" "1" :: post).filter
          fun e => (calculateMetrics e).opened).length := by
      rw [hfiltV, hfiltV, hflagT, hflagT1]
      simp [List.length_append]
    have hfc : ((pre ++ setRowKey r "opens" s :: post).filter
          fun e => (calculateMetrics e).clicked).length
        = ((pre ++ setRowKey r "opens" "1" :: post).filter
          fun e => (calculateMetrics e).clicked).length := by
      simp only [List.filter_append, List.filter_cons, hm2, List.length_append]
      by_cases hx : (calculateMetrics (setRowKey r "opens" "1")).clicked <;> simp [hx]
    have hfr : ((pre ++ setRowKey r "opens" s :: post).filter
          fun e => (calculateMetrics e).replied).length
        = ((pre ++ setRowKey r "opens" "1" :: post).filter
          fun e => (calculateMetrics e).replied).length := by
      simp only [List.filter_append, List.filter_cons, hm3, List.length_append]
      by_cases hx : (calculateMetrics (setRowKey r "opens" "1")).replied <;> simp [hx]
    simp only [stripReport, analyzeEmails, ReportS.mk.injEq]
    refine ⟨?_, ?_, hsubj⟩
    · rw [map_strip_sort, map_strip_sort, map_strip_finalize, map_strip_finalize, hgroups]
    · simp only [Overall.mk.injEq]
      exact ⟨hlen, hfo, hfc, hfr, by rw [hfo, hlen], by rw [hfc, hlen], by rw [hfr, hlen]⟩
  · -- +1 to overall.totalOpens
    show ((pre ++ setRowKey r "opens" s :: post).filter
        fun e => (calculateMetrics e).opened).length
      = ((pre ++ post).filter fun e => (calculateMetrics e).opened).length + 1
    rw [hfiltV, hflagT]
    simp [List.filter_append]
    omega
  · -- +1 to the summed binary group.opens
    rw [analyzeEmails_groups, analyzeEmails_groups, sortGroups_sum, sortGroups_sum,
      map_proj_finalize (·.opens) (fun g => rfl), map_proj_finalize (·.opens) (fun g => rfl)]
    show ((analyzeState (pre ++ setRowKey r "opens" s :: post)).groups.map (·.opens)).sum
      = ((analyzeState (pre ++ post)).groups.map (·.opens)).sum + 1
    rw [analyzeState, analyzeState, foldl_sum_opens, foldl_sum_opens]
    rw [hfiltV, hflagT]
    simp [List.filter_append]
    omega

/-- Binary idempotence for the clicks metric: any positive clicks value contributes exactly like clicks = 1. -/
theorem binaryIdem_clicks (r : Row) (pre post : List Row) (s : String) (v : Int)
    (hv : 0 < v) (hp : jsParseIntS s = some v) :
    (calculateMetrics (setRowKey r "clicks" s)).clicked = true
    ∧ (calculateMetrics (setRowKey r "clicks" "1")).clicked = true
    ∧ stripReport (analyzeEmails (pre ++ setRowKey r "clicks" s :: post))
        = stripReport (analyzeEmails (pre ++ setRowKey r "clicks" "1" :: post))
    ∧ (analyzeEmails (pre ++ setRowKey r "clicks" s :: post)).overall.totalClicks
        = (analyzeEmails (pre ++ post)).overall.totalClicks + 1
    ∧ ((analyzeEmails (pre ++ setRowKey r "clicks" s :: post)).templateGroups.map (·.clicks)).sum
        = ((analyzeEmails (pre ++ post)).templateGroups.map (·.clicks)).sum + 1 := by
  obtain ⟨_, hflag, hoc, hor⟩ := calculateMetrics_setClicks r s v hp
  obtain ⟨_, hflag1, hoc1, hor1⟩ := calculateMetrics_setClicks r "1" 1 (by decide)
  have hvpos : decide (0 < v) = true := decide_eq_true hv
  have hflagT : (calculateMetrics (setRowKey r "clicks" s)).clicked = true := by
    rw [hflag, hvpos]
  have hflagT1 : (calculateMetrics (setRowKey r "clicks" "1")).clicked = true := by
    rw [hflag1]
    decide
  have hbody : bodyField (setRowKey r "clicks" s) = bodyField (setRowKey r "clicks" "1") := by
    unfold bodyField
    rw [chainGet_setRowKey_other r "clicks" s _ (by decide),
      chainGet_setRowKey_other r "clicks" "1" _ (by decide)]
  have hsub : subjectField (setRowKey r "clicks" s)
      = subjectField (setRowKey r "clicks" "1") := by
    unfold subjectField
    rw [chainGet_setRowKey_other r "clicks" s _ (by decide),
      chainGet_setRowKey_other r "clicks" "1" _ (by decide)]
  have hm1 : (calculateMetrics (setRowKey r "clicks" s)).opened
      = (calculateMetrics (setRowKey r "clicks" "1")).opened := by rw [hoc, hoc1]
  have hm2 : (calculateMetrics (setRowKey r "clicks" s)).clicked
      = (calculateMetrics (setRowKey r "clicks" "1")).clicked := by rw [hflagT, hflagT1]
  have hm3 : (calculateMetrics (setRowKey r "clicks" s)).replied
      = (calculateMetrics (setRowKey r "clicks" "1")).replied := by rw [hor, hor1]
  -- the aggregation states after the prefix are literally equal
  have hpre := @foldl_strip pre initState initState rfl rfl
  have hstep := processEmail_strip hpre.1 hpre.2 hbody hsub hm1 hm2 hm3
  have hfold := foldl_strip post hstep.1 hstep.2
  have hstate1 : analyzeState (pre ++ setRowKey r "clicks" s :: post)
      = (post.foldl processEmail (processEmail (pre.foldl processEmail initState)
          (setRowKey r "clicks" s))) := by
    simp [analyzeState, List.foldl_append]
  have hstate2 : analyzeState (pre ++ setRowKey r "clicks" "1" :: post)
      = (post.foldl processEmail (processEmail (pre.foldl processEmail initState)
          (setRowKey r "clicks" "1"))) := by
    simp [analyzeState, List.foldl_append]
  have hgroups : (analyzeState (pre ++ setRowKey r "clicks" s :: post)).groups.map stripGroup
      = (analyzeState (pre ++ setRowKey r "clicks" "1" :: post)).groups.map stripGroup := by
    rw [hstate1, hstate2]
    exact hfold.1
  have hsubj : (analyzeState (pre ++ setRowKey r "clicks" s :: post)).subj
      = (analyzeState (pre ++ setRowKey r "clicks" "1" :: post)).subj := by
    rw [hstate1, hstate2]
    exact hfold.2
  have hfiltV : ∀ x : Row, (pre ++ x :: post).filter (fun e => (calculateMetrics e).clicked)
      = pre.filter (fun e => (calculateMetrics e).clicked)
        ++ ((if (calculateMetrics x).clicked then [x] else [])
        ++ post.filter (fun e => (calculateMetrics e).clicked)) := by
    intro x
    simp only [List.filter_append, List.filter_cons]
    by_cases hx : (calculateMetrics x).clicked <;> simp [hx]
  refine ⟨hflagT, hflagT1, ?_, ?_, ?_⟩
  · -- stripped reports agree
    have hlen : (pre ++ setRowKey r "clicks" s :: post).length
        = (pre ++ setRowKey r "clicks" "1" :: post).length := by simp
    have hfo : ((pre ++ setRowKey r "clicks" s :: post).filter
          fun e => (calculateMetrics e).opened).length
        = ((pre ++ setRowKey r "clicks" "1" :: post).filter
          fun e => (calculateMetrics e).opened).length := by
      simp only [List.filter_append, List.filter_cons, hm1, List.length_append]
      by_cases hx : (calculateMetrics (setRowKey r "clicks" "1")).opened <;> simp [hx]
    have hfc : ((pre ++ setRowKey r "clicks" s :: post).filter
          fun e => (calculateMetrics e).clicked).length
        = ((pre ++ setRowKey r "clicks" "1" :: post).filter
          fun e => (calculateMetrics e).clicked).length := by
      rw [hfiltV, hfiltV, hflagT, hflagT1]
      simp [List.length_append]
    have hfr : ((pre ++ setRowKey r "clicks" s :: post).filter
          fun e => (calculateMetrics e).replied).length
        = ((pre ++ setRowKey r "clicks" "1" :: post).filter
          fun e => (calculateMetrics e).replied).length := by
      simp only [List.filter_append, List.filter_cons, hm3, List.length_append]
      by_cases hx : (calculateMetrics (setRowKey r "clicks" "1")).replied <;> simp [hx]
    simp only [stripReport, analyzeEmails, ReportS.mk.injEq]
    refine ⟨?_, ?_, hsubj⟩
    · rw [map_strip_sort, map_strip_sort, map_strip_finalize, map_strip_finalize, hgroups]
    · simp only [Overall.mk.injEq]
      exact ⟨hlen, hfo, hfc, hfr, by rw [hfo, hlen], by rw [hfc, hlen], by rw [hfr, hlen]⟩
  · -- +1 to overall.totalClicks
    show ((pre ++ setRowKey r "clicks" s :: post).filter
        fun e => (calculateMetrics e).clicked).length
      = ((pre ++ post).filter fun e => (calculateMetrics e).clicked).length + 1
    rw [hfiltV, hflagT]
    simp [List.filter_append]
    omega
  · -- +1 to the summed binary group.clicks
    rw [analyzeEmails_groups, analyzeEmails_groups, sortGroups_sum, sortGroups_sum,
      map_proj_finalize (·.clicks) (fun g => rfl), map_proj_finalize (·.clicks) (fun g => rfl)]
    show ((analyzeState (pre ++ setRowKey r "clicks" s :: post)).groups.map (·.clicks)).sum
      = ((analyzeState (pre ++ post)).groups.map (·.clicks)).sum + 1
    rw [analyzeState, analyzeState, foldl_sum_clicks, foldl_sum_clicks]
    rw [hfiltV, hflagT]
    simp [List.filter_append]
    omega

/-- Binary idempotence for the replies metric: any positive replies value contributes exactly like replies = 1. -/
theorem binaryIdem_replies (r : Row) (pre post : List Row) (s : String) (v : Int)
    (hv : 0 < v) (hp : jsParseIntS s = some v) :
    (calculateMetrics (setRowKey r "replies" s)).replied = true
    ∧ (calculateMetrics (setRowKey r "replies" "1")).replied = true
    ∧ stripReport (analyzeEmails (pre ++ setRowKey r "replies" s :: post))
        = stripReport (analyzeEmails (pre ++ setRowKey r "replies" "1" :: post))
    ∧ (analyzeEmails (pre ++ setRowKey r "replies" s :: post)).overall.totalReplies
        = (analyzeEmails (pre ++ post)).overall.totalReplies + 1
    ∧ ((analyzeEmails (pre ++ setRowKey r "replies" s :: post)).templateGroups.map (·.replies)).sum
        = ((analyzeEmails (pre ++ post)).templateGroups.map (·.replies)).sum + 1 := by
  obtain ⟨_, hflag, hoc, hor⟩ := calculateMetrics_setReplies r s v hp
  obtain ⟨_, hflag1, hoc1, hor1⟩ := calculateMetrics_setReplies r "1" 1 (by decide)
  have hvpos : decide (0 < v) = true := decide_eq_true hv
  have hflagT : (calculateMetrics (setRowKey r "replies" s)).replied = true := by
    rw [hflag, hvpos]
  have hflagT1 : (calculateMetrics (setRowKey r "replies" "1")).replied = true := by
    rw [hflag1]
    decide
  have hbody : bodyField (setRowKey r "replies" s) = bodyField (setRowKey r "replies" "1") := by
    unfold bodyField
    rw [chainGet_setRowKey_other r "replies" s _ (by decide),
      chainGet_setRowKey_other r "replies" "1" _ (by decide)]
  have hsub : subjectField (setRowKey r "replies" s)
      = subjectField (setRowKey r "replies" "1") := by
    unfold subjectField
    rw [chainGet_setRowKey_other r "replies" s _ (by decide),
      chainGet_setRowKey_other r "replies" "1" _ (by decide)]
  have hm1 : (calculateMetrics (setRowKey r "replies" s)).opened
      = (calculateMetrics (setRowKey r "replies" "1")).opened := by rw [hoc, hoc1]
  have hm2 : (calculateMetrics (setRowKey r "replies" s)).clicked
      = (calculateMetrics (setRowKey r "replies" "1")).clicked := by rw [hor, hor1]
  have hm3 : (calculateMetrics (setRowKey r "replies" s)).replied
      = (calculateMetrics (setRowKey r "replies" "1")).replied := by rw [hflagT, hflagT1]
  -- the aggregation states after the prefix are literally equal
  have hpre := @foldl_strip pre initState initState rfl rfl
  have hstep := processEmail_strip hpre.1 hpre.2 hbody hsub hm1 hm2 hm3
  have hfold := foldl_strip post hstep.1 hstep.2
  have hstate1 : analyzeState (pre ++ setRowKey r "replies" s :: post)
      = (post.foldl processEmail (processEmail (pre.foldl processEmail initState)
          (setRowKey r "replies" s))) := by
    simp [analyzeState, List.foldl_append]
  have hstate2 : analyzeState (pre ++ setRowKey r "replies" "1" :: post)
      = (post.foldl processEmail (processEmail (pre.foldl processEmail initState)
          (setRowKey r "replies" "1"))) := by
    simp [analyzeState, List.foldl_append]
  have hgroups : (analyzeState (pre ++ setRowKey r "replies" s :: post)).groups.map stripGroup
      = (analyzeState (pre ++ setRowKey r "replies" "1" :: post)).groups.map stripGroup := by
    rw [hstate1, hstate2]
    exact hfold.1
  have hsubj : (analyzeState (pre ++ setRowKey r "replies" s :: post)).subj
      = (analyzeState (pre ++ setRowKey r "replies" "1" :: post)).subj := by
    rw [hstate1, hstate2]
    exact hfold.2
  have hfiltV : ∀ x : Row, (pre ++ x :: post).filter (fun e => (calculateMetrics e).replied)
      = pre.filter (fun e => (calculateMetrics e).replied)
        ++ ((if (calculateMetrics x).replied then [x] else [])
        ++ post.filter (fun e => (calculateMetrics e).replied)) := by
    intro x
    simp only [List.filter_append, List.filter_cons]
    by_cases hx : (calculateMetrics x).replied <;> simp [hx]
  refine ⟨hflagT, hflagT1, ?_, ?_, ?_⟩
  · -- stripped reports agree
    have hlen : (pre ++ setRowKey r "replies" s :: post).length
        = (pre ++ setRowKey r "replies" "1" :: post).length := by simp
    have hfo : ((pre ++ setRowKey r "replies" s :: post).filter
          fun e => (calculateMetrics e).opened).length
        = ((pre ++ setRowKey r "replies" "1" :: post).filter
          fun e => (calculateMetrics e).opened).length := by
      simp only [List.filter_append, List.filter_cons, hm1, List.length_append]
      by_cases hx : (calculateMetrics (setRowKey r "replies" "1")).opened <;> simp [hx]
    have hfc : ((pre ++ setRowKey r "replies" s :: post).filter
          fun e => (calculateMetrics e).clicked).length
        = ((pre ++ setRowKey r "replies" "1" :: post).filter
          fun e => (calculateMetrics e).clicked).length := by
      simp only [List.filter_append, List.filter_cons, hm2, List.length_append]
      by_cases hx : (calculateMetrics (setRowKey r "replies" "1")).clicked <;> simp [hx]
    have hfr : ((pre ++ setRowKey r "replies" s :: post).filter
          fun e => (calculateMetrics e).replied).length
        = ((pre ++ setRowKey r "replies" "1" :: post).filter
          fun e => (calculateMetrics e).replied).length := by
      rw [hfiltV, hfiltV, hflagT, hflagT1]
      simp [List.length_append]
    simp only [stripReport, analyzeEmails, ReportS.mk.injEq]
    refine ⟨?_, ?_, hsubj⟩
    · rw [map_strip_sort, map_strip_sort, map_strip_finalize, map_strip_finalize, hgroups]
    · simp only [Overall.mk.injEq]
      exact ⟨hlen, hfo, hfc, hfr, by rw [hfo, hlen], by rw [hfc, hlen], by rw [hfr, hlen]⟩
  · -- +1 to overall.totalReplies
    show ((pre ++ setRowKey r "replies" s :: post).filter
        fun e => (calculateMetrics e).replied).length
      = ((pre ++ post).filter fun e => (calculateMetrics e).replied).length + 1
    rw [hfiltV, hflagT]
    simp [List.filter_append]
    omega
  · -- +1 to the summed binary group.replies
    rw [analyzeEmails_groups, analyzeEmails_groups, sortGroups_sum, sortGroups_sum,
      map_proj_finalize (·.replies) (fun g => rfl), map_proj_finalize (·.replies) (fun g => rfl)]
    show ((analyzeState (pre ++ setRowKey r "replies" s :: post)).groups.map (·.replies)).sum
      = ((analyzeState (pre ++ post)).groups.map (·.replies)).sum + 1
    rw [analyzeState, analyzeState, foldl_sum_replies, foldl_sum_replies]
    rw [hfiltV, hflagT]
    simp [List.filter_append]
    omega

/-- C8: two rows identical except for a positive opens value (for
example 12 versus 1) contribute identically to the aggregation: both
have binary flag `opened = true`, the whole report agrees once the
per-email detail records (the only place the raw count survives) are
erased, and the row adds exactly +1 to `overall.totalOpens` and +1 to
the total of the binary `group.opens` counters — and symmetrically
for the clicks and replies metrics. -/
theorem c8_binary_idempotence (r : Row) (pre post : List Row) (s : String) (v : Int)
    (hv : 0 < v) (hp : jsParseIntS s = some v) :
    ((calculateMetrics (setRowKey r "opens" s)).opened = true
      ∧ (calculateMetrics (setRowKey r "opens" "1")).opened = true
      ∧ stripReport (analyzeEmails (pre ++ setRowKey r "opens" s :: post))
          = stripReport (analyzeEmails (pre ++ setRowKey r "opens" "1" :: post))
      ∧ (analyzeEmails (pre ++ setRowKey r "opens" s :: post)).overall.totalOpens
          = (analyzeEmails (pre ++ post)).overall.totalOpens + 1
      ∧ ((analyzeEmails (pre ++ setRowKey r "opens" s :: post)).templateGroups.map
          (·.opens)).sum
          = ((analyzeEmails (pre ++ post)).templateGroups.map (·.opens)).sum + 1)
    ∧ ((calculateMetrics (setRowKey r "clicks" s)).clicked = true
      ∧ (calculateMetrics (setRowKey r "clicks" "1")).clicked = true
      ∧ stripReport (analyzeEmails (pre ++ setRowKey r "clicks" s :: post))
          = stripReport (analyzeEmails (pre ++ setRowKey r "clicks" "1" :: post))
      ∧ (analyzeEmails (pre ++ setRowKey r "clicks" s :: post)).overall.totalClicks
          = (analyzeEmails (pre ++ post)).overall.totalClicks + 1
      ∧ ((analyzeEmails (pre ++ setRowKey r "clicks" s :: post)).templateGroups.map
          (·.clicks)).sum
          = ((analyzeEmails (pre ++ post)).templateGroups.map (·.clicks)).sum + 1)
    ∧ ((calculateMetrics (setRowKey r "replies" s)).replied = true
      ∧ (calculateMetrics (setRowKey r "replies" "1")).replied = true
      ∧ stripReport (analyzeEmails (pre ++ setRowKey r "replies" s :: post))
          = stripReport (analyzeEmails (pre ++ setRowKey r "replies" "1" :: post))
      ∧ (analyzeEmails (pre ++ setRowKey r "replies" s :: post)).overall.totalReplies
          = (analyzeEmails (pre ++ post)).overall.totalReplies + 1
      ∧ ((analyzeEmails (pre ++ setRowKey r "replies" s :: post)).templateGroups.map
          (·.replies)).sum
          = ((analyzeEmails (pre ++ post)).templateGroups.map (·.replies)).sum + 1) :=
  ⟨binaryIdem_opens r pre post s v hv hp,
   binaryIdem_clicks r pre post s v hv hp,
   binaryIdem_replies r pre post s v hv hp⟩

/-- C8, witnessed with the value 12 versus 1 on each of the three
metric keys of an otherwise empty row. -/
theorem c8_binary_idempotence_witness :
    (calculateMetrics (setRowKey [] "opens" "12")).opened = true
    ∧ stripReport (analyzeEmails [setRowKey [] "opens" "12"])
        = stripReport (analyzeEmails [setRowKey [] "opens" "1"])
    ∧ (calculateMetrics (setRowKey [] "clicks" "12")).clicked = true
    ∧ stripReport (analyzeEmails [setRowKey [] "clicks" "12"])
        = stripReport (analyzeEmails [setRowKey [] "clicks" "1"])
    ∧ (calculateMetrics (setRowKey [] "replies" "12")).replied = true
    ∧ stripReport (analyzeEmails [setRowKey [] "replies" "12"])
        = stripReport (analyzeEmails [setRowKey [] "replies" "1"]) :=
  have h := c8_binary_idempotence [] [] [] "12" 12 (by decide) (by decide)
  ⟨h.1.1, h.1.2.2.1, h.2.1.1, h.2.1.2.2.1, h.2.2.1, h.2.2.2.2.1⟩

/-! ### Lower-case-only aggregator variant (for C9) -/

/-- Modelled from the spec (Design Notes, header case-sensitivity
ambiguity): the aggregator variant that consults only the
all-lower-case aliases of each chain. -/
def bodyFieldL (email : Row) : String := chainGet email ["body", "content", "message"]

/-- Lower-case-only subject chain. -/
def subjectFieldL (email : Row) : String := chainGet email ["subject", "subject_line"]

/-- Lower-case-only sent-date chain. -/
def sentDateFieldL (email : Row) : String := chainGet email ["date", "sent_date"]

/-- Lower-case-only recipient chain. -/
def recipientFieldL (email : Row) : String := chainGet email ["to", "recipient", "email"]

/-- Lower-case-only metrics extraction. -/
def calculateMetricsL (email : Row) : Metrics :=
  let opens := metricVal email ["opens", "opened"]
  let clicks := metricVal email ["clicks", "clicked"]
  let replies := metricVal email ["replies", "replied"]
  { opened := optPos opens, clicked := optPos clicks, replied := optPos replies,
    opens := opens, clicks := clicks, replies := replies }

/-- Lower-case-only per-row step. -/
def processEmailL (st : AnalyzerState) (email : Row) : AnalyzerState :=
  let bf := bodyFieldL email
  let sf := subjectFieldL email
  let template := analyzeTemplate bf
  let m := calculateMetricsL email
  let subject := analyzeSubject sf
  let d : EmailDetail := ⟨sf, bf, m, sentDateFieldL email, recipientFieldL email⟩
  let groups := updateGroups template.type template.description bf.data.length m d st.groups
  let sa := st.subj
  let sa :=
    if subject.hasQuestion then { sa with withQuestion := bumpBucket sa.withQuestion m.opened }
    else { sa with withoutQuestion := bumpBucket sa.withoutQuestion m.opened }
  let sa :=
    if subject.length < 40 then { sa with shortSubject := bumpBucket sa.shortSubject m.opened }
    else { sa with longSubject := bumpBucket sa.longSubject m.opened }
  ⟨groups, sa⟩

/-- Lower-case-only analysis. -/
def analyzeEmailsLower (emails : List Row) : Report :=
  let st := emails.foldl processEmailL initState
  let totalEmails := emails.length
  let totalOpens := (emails.filter fun e => (calculateMetricsL e).opened).length
  let totalClicks := (emails.filter fun e => (calculateMetricsL e).clicked).length
  let totalReplies := (emails.filter fun e => (calculateMetricsL e).replied).length
  { templateGroups := sortGroups (st.groups.map finalizeGroup),
    overall :=
      { totalEmails := totalEmails,
        totalOpens := totalOpens,
        totalClicks := totalClicks,
        totalReplies := totalReplies,
        openRate := overallRate totalOpens totalEmails,
        clickRate := overallRate totalClicks totalEmails,
        replyRate := overallRate totalReplies totalEmails },
    subjectAnalysis := st.subj }

/-- The mixed-case alias keys consulted by the aggregator and metrics
extractor. -/
def MIXED_KEYS : List String :=
  ["Body", "Email Body", "Subject", "Subject Line", "Opens", "Opened",
   "Clicks", "Clicked", "Replies", "Replied", "Date", "Sent Date", "To", "Recipient"]

/-- A row on which no mixed-case alias is ever present. -/
def MixedEmpty (r : Row) : Prop := ∀ k ∈ MIXED_KEYS, rowGet r k = ""

/-! ### Character lemmas: lower-casing never yields an upper-case
letter -/

theorem toLower_toNat_of_upper {c : Char} (h : 65 ≤ c.toNat ∧ c.toNat ≤ 90) :
    (Char.toLower c).toNat = c.toNat + 32 := by
  unfold Char.toLower
  rw [if_pos ⟨h.1, h.2⟩]
  have hv : (c.toNat + 32).isValidChar := Or.inl (by omega)
  unfold Char.ofNat
  rw [dif_pos hv]
  rfl

theorem toLower_eq_self_of_not_upper {c : Char} (h : ¬(65 ≤ c.toNat ∧ c.toNat ≤ 90)) :
    Char.toLower c = c := by
  unfold Char.toLower
  rw [if_neg h]

theorem toLower_ne_upper (c k : Char) (hk : 65 ≤ k.toNat ∧ k.toNat ≤ 90) :
    Char.toLower c ≠ k := by
  intro heq
  by_cases h : 65 ≤ c.toNat ∧ c.toNat ≤ 90
  · have h2 := toLower_toNat_of_upper h
    rw [heq] at h2
    omega
  · rw [toLower_eq_self_of_not_upper h] at heq
    subst heq
    exact h hk

/-- A lower-cased string never equals a key containing an upper-case
letter. -/
theorem jsToLower_ne_of_upper (s : String) (k : String)
    (hk : ∃ c ∈ k.data, 65 ≤ c.toNat ∧ c.toNat ≤ 90) : jsToLower s ≠ k := by
  intro heq
  obtain ⟨c, hc, hrange⟩ := hk
  have hdata : (jsToLower s).data = s.data.map Char.toLower := rfl
  rw [← heq, hdata] at hc
  obtain ⟨c', _, hc'⟩ := List.mem_map.mp hc
  exact toLower_ne_upper c' c hrange hc'

theorem rowGetRev_eq_empty {l : List (String × String)} {k : String}
    (h : ∀ p ∈ l, p.1 ≠ k) : rowGetRev l k = "" := by
  induction l with
  | nil => rfl
  | cons p t ih =>
    have hp := h p (List.mem_cons_self p t)
    simp only [rowGetRev]
    rw [if_neg hp]
    exact ih fun q hq => h q (List.mem_cons_of_mem p hq)

theorem mkRow_fst_mem {headers values : List String} {p : String × String}
    (h : p ∈ mkRow headers values) : p.1 ∈ headers := by
  unfold mkRow at h
  rcases List.mem_map.mp h with ⟨q, hq, hq2⟩
  subst hq2
  exact List.get?_mem (List.mem_enum_iff_get?.mp hq)

/-- Rows built from lower-cased headers read `''` at every key that
contains an upper-case letter. -/
theorem rowGet_mkRow_upper {raw : List (List Char)} {values : List String} {k : String}
    (hk : ∃ c ∈ k.data, 65 ≤ c.toNat ∧ c.toNat ≤ 90) :
    rowGet (mkRow (raw.map cleanHeader) values) k = "" := by
  apply rowGetRev_eq_empty
  intro p hp
  have hmem : p.1 ∈ raw.map cleanHeader := mkRow_fst_mem (List.mem_reverse.mp hp)
  rcases List.mem_map.mp hmem with ⟨w, _, hw⟩
  rw [← hw]
  exact jsToLower_ne_of_upper _ k hk

/-- Every row produced by the CSV reader is built from the lower-cased
headers. -/
theorem parseRowsF_shape {headers : List String} {f : Nat} {lines : List (List Char)}
    {row : Row} (hrow : row ∈ parseRowsF headers f lines) :
    ∃ values, row = mkRow headers values := by
  induction f generalizing lines row with
  | zero => simp [parseRowsF] at hrow
  | succ f ih =>
    cases lines with
    | nil => simp [parseRowsF] at hrow
    | cons line rest =>
      simp only [parseRowsF] at hrow
      split at hrow
      · rcases List.mem_cons.mp hrow with h' | h'
        · exact ⟨_, h'⟩
        · exact ih h'
      · exact ih hrow

theorem parseCSV_mixedEmpty {text : String} {row : Row} (hrow : row ∈ parseCSV text) :
    MixedEmpty row := by
  simp only [parseCSV, parseRows] at hrow
  split at hrow
  · simp at hrow
  · obtain ⟨values, hv⟩ := parseRowsF_shape hrow
    intro k hk
    subst hv
    apply rowGet_mkRow_upper
    revert hk
    revert k
    decide

/-! ### Alias-chain congruence under absent mixed-case keys -/

theorem firstNonEmpty_cons_empty (r : Row) (k : String) (ks : List String)
    (h : rowGet r k = "") : firstNonEmpty r (k :: ks) = firstNonEmpty r ks := by
  simp [firstNonEmpty, h]

theorem firstNonEmpty_cons_ne (r : Row) (k : String) (ks : List String)
    (h : rowGet r k ≠ "") : firstNonEmpty r (k :: ks) = some (rowGet r k) := by
  simp [firstNonEmpty, h]

theorem bodyField_lower {r : Row} (h : MixedEmpty r) : bodyField r = bodyFieldL r := by
  have h1 : rowGet r "Body" = "" := h "Body" (by decide)
  have h2 : rowGet r "Email Body" = "" := h "Email Body" (by decide)
  unfold bodyField bodyFieldL chainGet
  by_cases hb : rowGet r "body" = "" <;> simp [firstNonEmpty, hb, h1, h2]

theorem subjectField_lower {r : Row} (h : MixedEmpty r) : subjectField r = subjectFieldL r := by
  have h1 : rowGet r "Subject" = "" := h "Subject" (by decide)
  have h2 : rowGet r "Subject Line" = "" := h "Subject Line" (by decide)
  unfold subjectField subjectFieldL chainGet
  by_cases hb : rowGet r "subject" = "" <;> simp [firstNonEmpty, hb, h1, h2]

theorem sentDateField_lower {r : Row} (h : MixedEmpty r) :
    sentDateField r = sentDateFieldL r := by
  have h1 : rowGet r "Date" = "" := h "Date" (by decide)
  have h2 : rowGet r "Sent Date" = "" := h "Sent Date" (by decide)
  unfold sentDateField sentDateFieldL chainGet
  by_cases hb : rowGet r "date" = "" <;> simp [firstNonEmpty, hb, h1, h2]

theorem recipientField_lower {r : Row} (h : MixedEmpty r) :
    recipientField r = recipientFieldL r := by
  have h1 : rowGet r "To" = "" := h "To" (by decide)
  have h2 : rowGet r "Recipient" = "" := h "Recipient" (by decide)
  unfold recipientField recipientFieldL chainGet
  by_cases hb : rowGet r "to" = "" <;> by_cases hr : rowGet r "recipient" = "" <;>
    simp [firstNonEmpty, hb, hr, h1, h2]

theorem metricVal_lower_pair (r : Row) (k1 k2 k3 k4 : String)
    (h2 : rowGet r k2 = "") (h4 : rowGet r k4 = "") :
    metricVal r [k1, k2, k3, k4] = metricVal r [k1, k3] := by
  unfold metricVal
  by_cases hb : rowGet r k1 = "" <;> by_cases hc : rowGet r k3 = "" <;>
    simp [firstNonEmpty, hb, hc, h2, h4]

theorem calculateMetrics_lower {r : Row} (h : MixedEmpty r) :
    calculateMetrics r = calculateMetricsL r := by
  unfold calculateMetrics calculateMetricsL
  rw [metricVal_lower_pair r "opens" "Opens" "opened" "Opened"
      (h "Opens" (by decide)) (h "Opened" (by decide)),
    metricVal_lower_pair r "clicks" "Clicks" "clicked" "Clicked"
      (h "Clicks" (by decide)) (h "Clicked" (by decide)),
    metricVal_lower_pair r "replies" "Replies" "replied" "Replied"
      (h "Replies" (by decide)) (h "Replied" (by decide))]

theorem processEmail_lower {st : AnalyzerState} {r : Row} (h : MixedEmpty r) :
    processEmail st r = processEmailL st r := by
  unfold processEmail processEmailL
  rw [bodyField_lower h, subjectField_lower h, sentDateField_lower h,
    recipientField_lower h, calculateMetrics_lower h]

theorem foldl_lower (l : List Row) (st : AnalyzerState) (h : ∀ r ∈ l, MixedEmpty r) :
    l.foldl processEmail st = l.foldl processEmailL st := by
  induction l generalizing st with
  | nil => rfl
  | cons e t ih =>
    rw [List.foldl_cons, List.foldl_cons, processEmail_lower (h e (List.mem_cons_self e t))]
    exact ih _ fun r hr => h r (List.mem_cons_of_mem e hr)

theorem analyzeEmails_lower (emails : List Row) (h : ∀ r ∈ emails, MixedEmpty r) :
    analyzeEmails emails = analyzeEmailsLower emails := by
  have hfo : (emails.filter fun e => (calculateMetrics e).opened)
      = emails.filter fun e => (calculateMetricsL e).opened :=
    List.filter_congr fun r hr => by rw [calculateMetrics_lower (h r hr)]
  have hfc : (emails.filter fun e => (calculateMetrics e).clicked)
      = emails.filter fun e => (calculateMetricsL e).clicked :=
    List.filter_congr fun r hr => by rw [calculateMetrics_lower (h r hr)]
  have hfr : (emails.filter fun e => (calculateMetrics e).replied)
      = emails.filter fun e => (calculateMetricsL e).replied :=
    List.filter_congr fun r hr => by rw [calculateMetrics_lower (h r hr)]
  unfold analyzeEmails analyzeEmailsLower analyzeState
  rw [foldl_lower emails initState h, hfo, hfc, hfr]

/-! ### C9: the mixed-case alias branches are dead on parsed CSV
input -/

/-- C9: `parseCSV` lower-cases every header, so no key of a parsed
row contains an upper-case letter and the mixed-case alias branches
(`email.Body`, `email.Subject`, `email.Opens`, `email['Email Body']`,
etc.) can never match: the full analysis of parsed CSV input is
extensionally equal to the variant consulting only the
all-lower-case aliases. -/
theorem c9_lowercase_refinement (text : String) :
    analyzeEmails (parseCSV text) = analyzeEmailsLower (parseCSV text) :=
  analyzeEmails_lower (parseCSV text) fun _ hr => parseCSV_mixedEmpty hr

/-! ### Trim and split lemmas (for C7) -/

theorem dropLeadWs_head {l : List Char} {c : Char} (h : (dropLeadWs l).head? = some c) :
    c.isWhitespace = false := by
  induction l with
  | nil => simp [dropLeadWs] at h
  | cons a t ih =>
    by_cases ha : a.isWhitespace
    · rw [show dropLeadWs (a :: t) = dropLeadWs t by simp [dropLeadWs, ha]] at h
      exact ih h
    · rw [show dropLeadWs (a :: t) = a :: t by simp [dropLeadWs, ha]] at h
      simp only [List.head?_cons, Option.some.injEq] at h
      subst h
      exact eq_false_of_ne_true ha

theorem dropLeadWs_eq_self {l : List Char}
    (h : ∀ c, l.head? = some c → c.isWhitespace = false) : dropLeadWs l = l := by
  cases l with
  | nil => rfl
  | cons a t =>
    have := h a rfl
    simp [dropLeadWs, this]

theorem dropLeadWs_suffix (l : List Char) : dropLeadWs l <:+ l := by
  induction l with
  | nil => exact List.suffix_refl []
  | cons a t ih =>
    by_cases ha : a.isWhitespace
    · rw [show dropLeadWs (a :: t) = dropLeadWs t by simp [dropLeadWs, ha]]
      exact ih.trans (List.suffix_cons a t)
    · rw [show dropLeadWs (a :: t) = a :: t by simp [dropLeadWs, ha]]

/-- JS `trim` is idempotent. -/
theorem trimChars_trimChars (l : List Char) : trimChars (trimChars l) = trimChars l := by
  have hB : dropLeadWs (trimChars l) = trimChars l := by
    apply dropLeadWs_eq_self
    intro c hc
    unfold trimChars at hc
    rw [List.head?_reverse] at hc
    obtain ⟨w, hw⟩ := dropLeadWs_suffix ((dropLeadWs l).reverse)
    have h2 : ((dropLeadWs l).reverse).getLast? = some c := by
      rw [← hw, List.getLast?_append, hc]
      rfl
    rw [List.getLast?_reverse] at h2
    exact dropLeadWs_head h2
  show (dropLeadWs ((dropLeadWs (trimChars l)).reverse)).reverse = trimChars l
  rw [hB]
  unfold trimChars
  rw [List.reverse_reverse,
    dropLeadWs_eq_self fun c hc => dropLeadWs_head hc]

theorem splitOnChar_no_sep {sep : Char} {l : List Char} (h : sep ∉ l) :
    splitOnChar sep l = [l] := by
  induction l with
  | nil => rfl
  | cons c t ih =>
    have hc : ¬c = sep := fun hc => h (hc ▸ List.mem_cons_self c t)
    have ht := ih fun hm => h (List.mem_cons_of_mem c hm)
    simp only [splitOnChar, hc, if_neg, not_false_iff, ht]

theorem splitOnChar_append {sep : Char} {l1 l2 : List Char} (h : sep ∉ l1) :
    splitOnChar sep (l1 ++ sep :: l2) = l1 :: splitOnChar sep l2 := by
  induction l1 with
  | nil => simp [splitOnChar]
  | cons c t ih =>
    have hc : ¬c = sep := fun hc => h (hc ▸ List.mem_cons_self c t)
    have ht := ih fun hm => h (List.mem_cons_of_mem c hm)
    simp only [List.cons_append, splitOnChar, hc, if_neg, not_false_iff, List.append_eq, ht]

/-- Scanning quote-free text while inside quotes just appends it
(commas included). -/
theorem scanLine_inQuotes {l : List Char} (h : ∀ c ∈ l, c ≠ '"') :
    ∀ vs cur, scanLine ⟨vs, cur, true⟩ l = ⟨vs, cur ++ l, true⟩ := by
  induction l with
  | nil =>
    intro vs cur
    simp [scanLine]
  | cons c t ih =>
    intro vs cur
    have hc : ¬c = '"' := h c (List.mem_cons_self c t)
    have hstep : scanChar ⟨vs, cur, true⟩ c = ⟨vs, cur ++ [c], true⟩ := by
      simp [scanChar, hc]
    rw [show scanLine ⟨vs, cur, true⟩ (c :: t) = scanLine (scanChar ⟨vs, cur, true⟩ c) t
        from rfl,
      hstep, ih (fun d hd => h d (List.mem_cons_of_mem c hd)), List.append_assoc]
    rfl

theorem stripOuterQuotes_no_quote {l : List Char} (h : '"' ∉ l) : stripOuterQuotes l = l := by
  have h1 : ¬l.head? = some '"' := by
    intro hh
    cases l with
    | nil => cases hh
    | cons a t =>
      simp only [List.head?_cons, Option.some.injEq] at hh
      exact h (hh ▸ List.mem_cons_self a t)
  have h2 : ¬l.getLast? = some '"' := by
    intro hh
    exact h (List.mem_of_getLast?_eq_some hh)
  unfold stripOuterQuotes
  rw [if_neg h1, if_neg h2]

/-! ### C7: multi-line quoted fields -/

/-- C7: a quoted body field broken across two physical lines (no
quotes or newlines inside the halves) parses as ONE row whose single
field is the two halves joined by the inserted newline (then
trimmed) — not as two rows. The length hypothesis is the reader's
own ≥ 10 body-retention rule. -/
theorem c7_multiline_field (a b : String)
    (ha : ∀ c ∈ a.data, c ≠ '"' ∧ c ≠ '\n')
    (hb : ∀ c ∈ b.data, c ≠ '"' ∧ c ≠ '\n')
    (hlen : 10 ≤ (trimChars (a.data ++ '\n' :: b.data)).length) :
    parseCSV ("body\n\"" ++ a ++ "\n" ++ b ++ "\"")
      = [[("body", ofChars (trimChars (a.data ++ '\n' :: b.data)))]]
    ∧ (parseCSV ("body\n\"" ++ a ++ "\n" ++ b ++ "\"")).length = 1 := by
  have hdata : ("body\n\"" ++ a ++ "\n" ++ b ++ "\"").data
      = ['b', 'o', 'd', 'y'] ++ '\n' :: (('"' :: a.data) ++ '\n' :: (b.data ++ ['"'])) := by
    simp only [String.data_append]
    simp
  have hnla : ('\n' : Char) ∉ '"' :: a.data := by
    intro hm
    rcases List.mem_cons.mp hm with h1 | h1
    · exact absurd h1 (by decide)
    · exact (ha _ h1).2 rfl
  have hnlb : ('\n' : Char) ∉ b.data ++ ['"'] := by
    intro hm
    rcases List.mem_append.mp hm with h1 | h1
    · exact (hb _ h1).2 rfl
    · simp only [List.mem_singleton] at h1
      exact absurd h1 (by decide)
  have hlines : splitOnChar '\n' ("body\n\"" ++ a ++ "\n" ++ b ++ "\"").data
      = [['b', 'o', 'd', 'y'], '"' :: a.data, b.data ++ ['"']] := by
    rw [hdata, splitOnChar_append (by decide), splitOnChar_append hnla,
      splitOnChar_no_sep hnlb]
  -- the record scan
  have hline1 : scanLine ⟨[], [], false⟩ ('"' :: a.data) = ⟨[], a.data, true⟩ := by
    rw [show scanLine ⟨[], [], false⟩ ('"' :: a.data)
        = scanLine (scanChar ⟨[], [], false⟩ '"') a.data from rfl,
      show scanChar ⟨[], [], false⟩ '"' = ⟨[], [], true⟩ from by simp [scanChar],
      scanLine_inQuotes (fun c hc => (ha c hc).1) [] []]
    simp
  have hline2 : scanLine ⟨[], a.data ++ ['\n'], true⟩ (b.data ++ ['"'])
      = ⟨[], (a.data ++ ['\n']) ++ b.data, false⟩ := by
    rw [show scanLine ⟨[], a.data ++ ['\n'], true⟩ (b.data ++ ['"'])
        = scanLine (scanLine ⟨[], a.data ++ ['\n'], true⟩ b.data) ['"'] from
        List.foldl_append scanChar _ b.data ['"'],
      scanLine_inQuotes (fun c hc => (hb c hc).1) [] (a.data ++ ['\n'])]
    simp [scanLine, scanChar]
  have hqf : '"' ∉ trimChars (a.data ++ '\n' :: b.data) := by
    intro hm
    have hmem := mem_trimChars hm
    rcases List.mem_append.mp hmem with h1 | h1
    · exact (ha _ h1).1 rfl
    · rcases List.mem_cons.mp h1 with h2 | h2
      · exact absurd h2 (by decide)
      · exact (hb _ h2).1 rfl
  have hscan : scanRecord ⟨[], [], false⟩ [('"' :: a.data), (b.data ++ ['"'])]
      = ([ofChars (trimChars (a.data ++ '\n' :: b.data))], []) := by
    simp only [scanRecord]
    rw [hline1]
    rw [if_pos ⟨rfl, by simp⟩]
    show scanRecord ⟨[], a.data ++ ['\n'], true⟩ [b.data ++ ['"']] = _
    simp only [scanRecord]
    rw [hline2]
    rw [if_neg (by simp)]
    have hx : (a.data ++ ['\n']) ++ b.data = a.data ++ '\n' :: b.data := by simp
    rw [hx]
    unfold cleanField
    rw [stripOuterQuotes_no_quote hqf]
    rfl
  -- the produced row and its retention
  have hfdata : (ofChars (trimChars (a.data ++ '\n' :: b.data))).data
      = trimChars (a.data ++ '\n' :: b.data) := rfl
  have hfne : ofChars (trimChars (a.data ++ '\n' :: b.data)) ≠ "" := by
    intro hf
    have h0 : trimChars (a.data ++ '\n' :: b.data) = [] := congrArg String.data hf
    rw [h0] at hlen
    simp at hlen
  have hgetb : rowGet [("body", ofChars (trimChars (a.data ++ '\n' :: b.data)))] "body"
      = ofChars (trimChars (a.data ++ '\n' :: b.data)) := rfl
  have hgets : rowGet [("body", ofChars (trimChars (a.data ++ '\n' :: b.data)))] "subject"
      = "" := by
    show rowGetRev _ _ = ""
    simp only [List.reverse_singleton, rowGetRev]
    rw [if_neg (by decide)]
  have hgetr : rowGet [("body", ofChars (trimChars (a.data ++ '\n' :: b.data)))] "recipient"
      = "" := by
    show rowGetRev _ _ = ""
    simp only [List.reverse_singleton, rowGetRev]
    rw [if_neg (by decide)]
  have htrim : trimChars (ofChars (trimChars (a.data ++ '\n' :: b.data))).data
      = trimChars (a.data ++ '\n' :: b.data) := by
    rw [hfdata, trimChars_trimChars]
  have hkeep : keepRow [("body", ofChars (trimChars (a.data ++ '\n' :: b.data)))] = true := by
    simp only [keepRow, hgetb, hgets, hgetr, htrim]
    have h1 : (ofChars (trimChars (a.data ++ '\n' :: b.data)) != "") = true := by
      simp [hfne]
    have h2 : decide (0 < (trimChars (a.data ++ '\n' :: b.data)).length) = true := by
      simp only [decide_eq_true_eq]
      omega
    have h3 : decide (10 ≤ (trimChars (a.data ++ '\n' :: b.data)).length) = true := by
      simp only [decide_eq_true_eq]
      omega
    rw [h1, h2, h3]
    decide
  have hrows : parseRowsF ["body"] 2 [('"' :: a.data), (b.data ++ ['"'])]
      = [[("body", ofChars (trimChars (a.data ++ '\n' :: b.data)))]] := by
    simp only [parseRowsF]
    rw [hscan]
    simp only [parseRowsF]
    rw [show mkRow ["body"] [ofChars (trimChars (a.data ++ '\n' :: b.data))]
        = [("body", ofChars (trimChars (a.data ++ '\n' :: b.data)))] from rfl]
    rw [hkeep]
    simp
  constructor
  · unfold parseCSV
    rw [hlines]
    rw [if_neg (by simp)]
    unfold parseRows
    simp only [List.headD, List.drop, List.length_cons, List.length_nil]
    rw [show parseHeaders ['b', 'o', 'd', 'y'] = ["body"] from by decide]
    exact hrows
  · unfold parseCSV
    rw [hlines]
    rw [if_neg (by simp)]
    unfold parseRows
    simp only [List.headD, List.drop, List.length_cons, List.length_nil]
    rw [show parseHeaders ['b', 'o', 'd', 'y'] = ["body"] from by decide]
    rw [hrows]
    rfl

/-- C7, witnessed at a concrete two-line quoted body. -/
theorem c7_multiline_field_witness :
    parseCSV "body\n\"hello csv\nworld data\"" = [[("body", "hello csv\nworld data")]] :=
  have h := c7_multiline_field "hello csv" "world data" (by decide) (by decide) (by decide)
  h.1

end EmailAnalyzer

